import Mathlib

/-!
Verification development for the configuration-cache / rate-limit subsystem
of the AI-Gateway repository (`config-center/app/models/cache.py`,
class `ConfigCache`).

The embedding models:
* parsed JSON values (`Json`), as produced by Python's `json.loads`, with
  Python's structural `==` on them (`pyEq`);
* a compact text codec (`encJ` / `parseVal`) standing for `json.dumps` /
  `json.loads` (indentation emitted by `dumps(indent=2)` is whitespace that
  `loads` ignores; the parser here skips whitespace, the printer omits it);
* Python dicts as association lists (`Dict`), with `.get` / `[...]` access;
* the Redis client as a key/value store with an availability flag: every
  operation raises (`Except.error`) when the store is down;
* the MySQL `db_manager` collaborator through the narrow record interface
  the cache layer consumes (the Relational Store of the spec).

Numbers are modelled as integers: the rule-configuration payloads and
counters handled by this subsystem are integral.
-/

/-- Parsed JSON values (the result of Python `json.loads`). Objects are
association lists in insertion order, as Python dicts preserve order. -/
inductive Json where
  | null
  | bool (b : Bool)
  | num (n : Int)
  | str (s : String)
  | arr (elems : List Json)
  | obj (fields : List (String × Json))

/-- A Python dict whose keys are strings, e.g. one rule record. -/
abbrev Dict := List (String × Json)

/-- First-occurrence lookup in an object / dict (Python dict access; dicts
built by `json.loads` or literals have unique keys). -/
def jLookup : List (String × Json) → String → Option Json
  | [], _ => none
  | (k, v) :: rest, key => if k = key then some v else jLookup rest key

mutual
/-- Python `==` on parsed JSON values: structural, with dict comparison
insensitive to key order. Objects compare by size plus per-key lookup,
which on unique-keyed dicts is exactly Python dict equality. -/
def pyEq : Json → Json → Bool
  | .null, .null => true
  | .bool a, .bool b => a == b
  | .num a, .num b => a == b
  | .str a, .str b => a == b
  | .arr a, .arr b => pyEqList a b
  | .obj a, .obj b => a.length == b.length && pyEqFields a b
  | _, _ => false

def pyEqList : List Json → List Json → Bool
  | [], [] => true
  | x :: xs, y :: ys => pyEq x y && pyEqList xs ys
  | _, _ => false

def pyEqFields : List (String × Json) → List (String × Json) → Bool
  | [], _ => true
  | (k, v) :: rest, b =>
    (match jLookup b k with
     | some w => pyEq v w
     | none => false) && pyEqFields rest b
end

/-- Boolean string-list membership (used for key sets of Python dicts). -/
def keyMem (k : String) : List String → Bool
  | [] => false
  | k' :: ks => if k = k' then true else keyMem k ks

theorem keyMem_eq_false {k : String} {l : List String} (h : keyMem k l = false) : k ∉ l := by
  induction l with
  | nil => simp
  | cons k' ks ih =>
    simp only [keyMem] at h
    by_cases he : k = k'
    · rw [if_pos he] at h; cases h
    · rw [if_neg he] at h
      simp only [List.mem_cons]
      rintro (h1 | h1)
      · exact he h1
      · exact (ih h) h1

/-- No duplicates in a key list (Python dicts cannot have duplicate keys). -/
def noDupKeys : List String → Bool
  | [] => true
  | k :: ks => !(keyMem k ks) && noDupKeys ks

mutual
/-- Well-formedness of a parsed value: every object has unique keys, as is
the case for any value produced by `json.loads` or a Python dict literal. -/
def jsonWF : Json → Bool
  | .null => true
  | .bool _ => true
  | .num _ => true
  | .str _ => true
  | .arr xs => jsonWFList xs
  | .obj fs => noDupKeys (fs.map Prod.fst) && jsonWFFields fs

def jsonWFList : List Json → Bool
  | [] => true
  | x :: xs => jsonWF x && jsonWFList xs

def jsonWFFields : List (String × Json) → Bool
  | [] => true
  | (_, v) :: fs => jsonWF v && jsonWFFields fs
end

theorem jLookup_self (fs : List (String × Json)) (hnd : noDupKeys (fs.map Prod.fst) = true) :
    ∀ kv ∈ fs, jLookup fs kv.1 = some kv.2 := by
  induction fs with
  | nil => intro kv h; cases h
  | cons hd tl ih =>
    simp only [List.map_cons, noDupKeys, Bool.and_eq_true, Bool.not_eq_true'] at hnd
    intro kv hkv
    rw [List.mem_cons] at hkv
    rcases hkv with h | h
    · subst h; simp [jLookup]
    · have hmem : kv.1 ∈ tl.map Prod.fst := List.mem_map_of_mem Prod.fst h
      have hne : hd.1 ≠ kv.1 := fun he => (keyMem_eq_false hnd.1) (he ▸ hmem)
      rcases hd with ⟨k0, v0⟩
      simp only [jLookup, if_neg hne]
      exact ih hnd.2 kv h

theorem jsonWFFields_mem {fs : List (String × Json)} (h : jsonWFFields fs = true) :
    ∀ kv ∈ fs, jsonWF kv.2 = true := by
  induction fs with
  | nil => intro kv hk; cases hk
  | cons hd tl ih =>
    intro kv hk
    rcases hd with ⟨k, v⟩
    simp only [jsonWFFields, Bool.and_eq_true] at h
    rw [List.mem_cons] at hk
    rcases hk with h1 | h1
    · subst h1; exact h.1
    · exact ih h.2 kv h1

mutual
theorem pyEq_refl : ∀ j : Json, jsonWF j = true → pyEq j j = true
  | .null, _ => rfl
  | .bool b, _ => by simp [pyEq]
  | .num n, _ => by simp [pyEq]
  | .str s, _ => by simp [pyEq]
  | .arr xs, h => by
    simp only [jsonWF] at h
    simp only [pyEq]
    exact pyEqList_refl xs h
  | .obj fs, h => by
    simp only [jsonWF, Bool.and_eq_true] at h
    simp only [pyEq, Bool.and_eq_true, beq_self_eq_true, true_and]
    exact pyEqFields_sub fs fs (fun kv hkv =>
      ⟨jLookup_self fs h.1 kv hkv, jsonWFFields_mem h.2 kv hkv⟩)

theorem pyEqList_refl : ∀ l : List Json, jsonWFList l = true → pyEqList l l = true
  | [], _ => rfl
  | x :: xs, h => by
    simp only [jsonWFList, Bool.and_eq_true] at h
    simp only [pyEqList, Bool.and_eq_true]
    exact ⟨pyEq_refl x h.1, pyEqList_refl xs h.2⟩

theorem pyEqFields_sub : ∀ (sub full : List (String × Json)),
    (∀ kv ∈ sub, jLookup full kv.1 = some kv.2 ∧ jsonWF kv.2 = true) →
    pyEqFields sub full = true
  | [], _, _ => rfl
  | (k, v) :: rest, full, h => by
    have hh := h (k, v) (List.mem_cons_self _ _)
    simp only [pyEqFields, Bool.and_eq_true]
    constructor
    · rw [hh.1]
      exact pyEq_refl v hh.2
    · exact pyEqFields_sub rest full (fun kv hkv => h kv (List.mem_cons_of_mem _ hkv))
end

/-! ### Decimal digits: printing and parsing of integers

Used both for the JSON codec (`json.dumps` / `json.loads` of numbers) and
for the counter strings stored in Redis (`str` / `int` conversions). -/

def digitChar (d : Nat) : Char :=
  if d = 0 then '0' else if d = 1 then '1' else if d = 2 then '2'
  else if d = 3 then '3' else if d = 4 then '4' else if d = 5 then '5'
  else if d = 6 then '6' else if d = 7 then '7' else if d = 8 then '8' else '9'

def isDigitC (c : Char) : Bool := 48 ≤ c.toNat && c.toNat ≤ 57

def dval (c : Char) : Nat := c.toNat - 48

/-- Decimal digits, fuel-indexed so that the definition is structural and
hence evaluates inside the kernel; `natDigits` supplies sufficient fuel. -/
def natDigitsF : Nat → Nat → List Char
  | 0, _ => []
  | fuel + 1, n =>
    if n < 10 then [digitChar n]
    else natDigitsF fuel (n / 10) ++ [digitChar (n % 10)]

/-- Decimal digits of a natural number, most significant first. -/
def natDigits (n : Nat) : List Char := natDigitsF (n + 1) n

theorem natDigitsF_congr : ∀ f f' n, n < f → n < f' → natDigitsF f n = natDigitsF f' n := by
  intro f
  induction f with
  | zero => intro f' n h; omega
  | succ f ih =>
    intro f' n h h'
    cases f' with
    | zero => omega
    | succ f' =>
      simp only [natDigitsF]
      by_cases h10 : n < 10
      · rw [if_pos h10, if_pos h10]
      · rw [if_neg h10, if_neg h10]
        have hlt : n / 10 < n := Nat.div_lt_self (by omega) (by omega)
        rw [ih f' (n / 10) (by omega) (by omega)]

theorem natDigits_eq (n : Nat) :
    natDigits n = if n < 10 then [digitChar n] else natDigits (n / 10) ++ [digitChar (n % 10)] := by
  show natDigitsF (n + 1) n = _
  simp only [natDigitsF]
  by_cases h10 : n < 10
  · rw [if_pos h10, if_pos h10]
  · rw [if_neg h10, if_neg h10]
    have hlt : n / 10 < n := Nat.div_lt_self (by omega) (by omega)
    rw [natDigitsF_congr n (n / 10 + 1) (n / 10) (by omega) (by omega)]
    rfl

theorem digitChar_isDigit {d : Nat} (h : d < 10) : isDigitC (digitChar d) = true := by
  interval_cases d <;> decide

theorem dval_digitChar {d : Nat} (h : d < 10) : dval (digitChar d) = d := by
  interval_cases d <;> decide

theorem natDigits_digits (n : Nat) : ∀ c ∈ natDigits n, isDigitC c = true := by
  induction n using Nat.strong_induction_on with
  | _ n ih =>
    rw [natDigits_eq]
    by_cases h : n < 10
    · rw [if_pos h]
      intro c hc
      rw [List.mem_singleton] at hc
      subst hc
      exact digitChar_isDigit h
    · rw [if_neg h]
      intro c hc
      rw [List.mem_append] at hc
      rcases hc with hc | hc
      · exact ih (n / 10) (Nat.div_lt_self (by omega) (by omega)) c hc
      · rw [List.mem_singleton] at hc
        subst hc
        exact digitChar_isDigit (Nat.mod_lt _ (by omega))

theorem natDigits_ne_nil (n : Nat) : natDigits n ≠ [] := by
  rw [natDigits_eq]
  by_cases h : n < 10
  · rw [if_pos h]; simp
  · rw [if_neg h]; simp

/-- Value of a digit string (the accumulator form of `int(...)`). -/
def digitsVal (ds : List Char) : Nat := ds.foldl (fun a c => a * 10 + dval c) 0

theorem digitsVal_natDigits (n : Nat) : digitsVal (natDigits n) = n := by
  suffices h : ∀ m a, (natDigits m).foldl (fun x c => x * 10 + dval c) a = a * 10 ^ (natDigits m).length + m by
    have := h n 0
    simpa [digitsVal] using this
  intro m
  induction m using Nat.strong_induction_on with
  | _ m ih =>
    intro a
    rw [natDigits_eq]
    by_cases h : m < 10
    · rw [if_pos h]
      simp [List.foldl, dval_digitChar h]
    · rw [if_neg h]
      rw [List.foldl_append]
      rw [ih (m / 10) (Nat.div_lt_self (by omega) (by omega)) a]
      simp only [List.foldl]
      rw [List.length_append, List.length_singleton,
        dval_digitChar (Nat.mod_lt _ (by omega)), pow_succ]
      have hm : m / 10 * 10 + m % 10 = m := by omega
      calc (a * 10 ^ (natDigits (m / 10)).length + m / 10) * 10 + m % 10
          = a * (10 ^ (natDigits (m / 10)).length * 10) + (m / 10 * 10 + m % 10) := by ring
        _ = a * (10 ^ (natDigits (m / 10)).length * 10) + m := by rw [hm]

/-- Longest digit prefix of a character list, with the remainder. -/
def takeDigits : List Char → List Char × List Char
  | [] => ([], [])
  | c :: r =>
    if isDigitC c then
      let p := takeDigits r
      (c :: p.1, p.2)
    else ([], c :: r)

/-- `rest` does not begin with a digit (so a digit run before it ends there). -/
def noDigitHead : List Char → Bool
  | [] => true
  | c :: _ => !(isDigitC c)

theorem takeDigits_append {ds rest : List Char} (hds : ∀ c ∈ ds, isDigitC c = true)
    (hrest : noDigitHead rest = true) : takeDigits (ds ++ rest) = (ds, rest) := by
  induction ds with
  | nil =>
    simp only [List.nil_append]
    cases rest with
    | nil => rfl
    | cons c r =>
      simp only [noDigitHead, Bool.not_eq_true'] at hrest
      simp [takeDigits, hrest]
  | cons c cs ih =>
    have hc : isDigitC c = true := hds c (List.mem_cons_self _ _)
    simp only [List.cons_append, takeDigits, hc, if_pos, List.append_eq]
    rw [ih (fun x hx => hds x (List.mem_cons_of_mem _ hx))]

theorem takeDigits_all {ds : List Char} (hds : ∀ c ∈ ds, isDigitC c = true) :
    takeDigits ds = (ds, []) := by
  have := @takeDigits_append _ [] hds rfl
  simpa using this

/-- Decimal text of an integer, Python `str(n)` / `json.dumps(n)`. -/
def encInt (n : Int) : List Char :=
  if n < 0 then '-' :: natDigits n.natAbs else natDigits n.natAbs

def intStr (n : Int) : String := ⟨encInt n⟩

/-- Parse a whole digit string (no sign, no leftover). -/
def parseDigitsAll (ds : List Char) : Option Nat :=
  match takeDigits ds with
  | ([], _) => none
  | (xs, []) => some (digitsVal xs)
  | (_, _ :: _) => none

/-- Parse a full string as an integer: Python `int(s)` restricted to the
canonical forms this system ever stores (optional minus sign, then digits). -/
def parseIntStr (s : String) : Option Int :=
  match s.data with
  | [] => none
  | c :: r =>
    if c = '-' then (parseDigitsAll r).map (fun m => -(m : Int))
    else (parseDigitsAll (c :: r)).map (fun m => (m : Int))

theorem parseDigitsAll_digits {ds : List Char} (hne : ds ≠ [])
    (hds : ∀ c ∈ ds, isDigitC c = true) : parseDigitsAll ds = some (digitsVal ds) := by
  rcases hd : ds with _ | ⟨d, t⟩
  · cases hne hd
  · subst hd
    unfold parseDigitsAll
    rw [takeDigits_all hds]

theorem isDigitC_ne_dash {c : Char} (h : isDigitC c = true) : c ≠ '-' := by
  intro he
  subst he
  simp [isDigitC] at h

theorem parseIntStr_intStr (n : Int) : parseIntStr (intStr n) = some n := by
  have hne := natDigits_ne_nil n.natAbs
  have hds := natDigits_digits n.natAbs
  by_cases h : n < 0
  · have h1 : intStr n = ⟨'-' :: natDigits n.natAbs⟩ := by simp [intStr, encInt, if_pos h]
    rw [h1]
    show (if ('-' : Char) = '-' then (parseDigitsAll (natDigits n.natAbs)).map (fun m => -(m : Int))
          else (parseDigitsAll ('-' :: natDigits n.natAbs)).map (fun m => (m : Int))) = some n
    rw [if_pos rfl, parseDigitsAll_digits hne hds]
    show some (-(digitsVal (natDigits n.natAbs) : Int)) = some n
    rw [digitsVal_natDigits]
    congr 1
    omega
  · rcases hnd : natDigits n.natAbs with _ | ⟨d, ds⟩
    · exact absurd hnd hne
    have hdd : isDigitC d = true := hds d (hnd ▸ List.mem_cons_self _ _)
    have hdne : d ≠ '-' := isDigitC_ne_dash hdd
    have h1 : intStr n = ⟨d :: ds⟩ := by simp [intStr, encInt, if_neg h, hnd]
    rw [h1]
    show (if d = '-' then (parseDigitsAll ds).map (fun m => -(m : Int))
          else (parseDigitsAll (d :: ds)).map (fun m => (m : Int))) = some n
    rw [if_neg hdne, ← hnd, parseDigitsAll_digits hne hds]
    show some ((digitsVal (natDigits n.natAbs) : Int)) = some n
    rw [digitsVal_natDigits]
    congr 1
    omega

/-! ### JSON text codec

`encJ` prints a value the way `json.dumps` does, except that it omits
inter-token whitespace (`dumps(indent=2)` only adds whitespace, which
`json.loads` ignores; the parser below skips whitespace, so the round-trip
is insensitive to this choice).  `parseVal` is `json.loads` on the fragment
of JSON this system stores: integral numbers, and strings that contain no
quote, backslash or control characters (so no escape sequences arise). -/

mutual
def encJ : Json → List Char
  | .null => 'n' :: ['u', 'l', 'l']
  | .bool true => 't' :: ['r', 'u', 'e']
  | .bool false => 'f' :: ['a', 'l', 's', 'e']
  | .num n => encInt n
  | .str s => '"' :: s.data ++ ['"']
  | .arr [] => ['[', ']']
  | .arr (x :: xs) => '[' :: (encJ x ++ encElems xs)
  | .obj [] => ['{', '}']
  | .obj ((k, v) :: fs) => '{' :: (('"' :: k.data ++ '"' :: ':' :: encJ v) ++ encFields fs)

def encElems : List Json → List Char
  | [] => [']']
  | x :: xs => ',' :: (encJ x ++ encElems xs)

def encFields : List (String × Json) → List Char
  | [] => ['}']
  | (k, v) :: fs => ',' :: (('"' :: k.data ++ '"' :: ':' :: encJ v) ++ encFields fs)
end

/-- The printed form of one object member. -/
def encField (f : String × Json) : List Char :=
  '"' :: f.1.data ++ '"' :: ':' :: encJ f.2

/-- A string atom or key that `json.dumps` prints without escaping: no
quote, no backslash, no control characters. -/
def strOkS (s : String) : Bool :=
  s.data.all (fun c => c ≠ '"' && c ≠ '\\' && 32 ≤ c.toNat)

mutual
/-- Values in the escape-free fragment handled by the codec. -/
def encOk : Json → Bool
  | .null => true
  | .bool _ => true
  | .num _ => true
  | .str s => strOkS s
  | .arr xs => encOkList xs
  | .obj fs => encOkFields fs

def encOkList : List Json → Bool
  | [] => true
  | x :: xs => encOk x && encOkList xs

def encOkFields : List (String × Json) → Bool
  | [] => true
  | (k, v) :: fs => strOkS k && encOk v && encOkFields fs
end

mutual
/-- Parser fuel needed for a value (an upper bound, cf. `jsize_le`). -/
def jsize : Json → Nat
  | .null => 1
  | .bool _ => 1
  | .num _ => 1
  | .str _ => 1
  | .arr xs => 2 + esize xs
  | .obj fs => 2 + fsize fs

def esize : List Json → Nat
  | [] => 0
  | x :: xs => 1 + jsize x + esize xs

def fsize : List (String × Json) → Nat
  | [] => 0
  | (_, v) :: fs => 1 + jsize v + fsize fs
end

def isWsC (c : Char) : Bool := c = ' ' || c = '\n' || c = '\t' || c = '\r'

/-- Skip leading whitespace. -/
def skipWs : List Char → List Char
  | [] => []
  | c :: r => if isWsC c then skipWs r else c :: r

/-- Read the characters of a string atom up to the closing quote. -/
def takeStr : List Char → Option (List Char × List Char)
  | [] => none
  | c :: r =>
    if c = '"' then some ([], r)
    else (takeStr r).map (fun p => (c :: p.1, p.2))

mutual
/-- `json.loads`, fuel-indexed: parse one value and return the remainder. -/
def parseVal : Nat → List Char → Option (Json × List Char)
  | 0, _ => none
  | fuel + 1, s =>
    match skipWs s with
    | [] => none
    | c :: r =>
      if c = 'n' then
        match r with
        | 'u' :: 'l' :: 'l' :: r2 => some (.null, r2)
        | _ => none
      else if c = 't' then
        match r with
        | 'r' :: 'u' :: 'e' :: r2 => some (.bool true, r2)
        | _ => none
      else if c = 'f' then
        match r with
        | 'a' :: 'l' :: 's' :: 'e' :: r2 => some (.bool false, r2)
        | _ => none
      else if c = '"' then
        (takeStr r).map (fun p => (.str ⟨p.1⟩, p.2))
      else if c = '-' then
        match takeDigits r with
        | ([], _) => none
        | (ds, r2) => some (.num (-(digitsVal ds : Int)), r2)
      else if c = '[' then
        match skipWs r with
        | ']' :: r2 => some (.arr [], r2)
        | r1 => (parseElems fuel r1).map (fun p => (.arr p.1, p.2))
      else if c = '{' then
        match skipWs r with
        | '}' :: r2 => some (.obj [], r2)
        | r1 => (parseFields fuel r1).map (fun p => (.obj p.1, p.2))
      else if isDigitC c then
        match takeDigits (c :: r) with
        | ([], _) => none
        | (ds, r2) => some (.num ((digitsVal ds : Int)), r2)
      else none

/-- Parse the elements of a non-empty array, positioned at the first one. -/
def parseElems : Nat → List Char → Option (List Json × List Char)
  | 0, _ => none
  | fuel + 1, s =>
    (parseVal fuel s).bind (fun p =>
      match skipWs p.2 with
      | ',' :: r => (parseElems fuel r).map (fun q => (p.1 :: q.1, q.2))
      | ']' :: r => some ([p.1], r)
      | _ => none)

/-- Parse the members of a non-empty object, positioned at the first key. -/
def parseFields : Nat → List Char → Option (List (String × Json) × List Char)
  | 0, _ => none
  | fuel + 1, s =>
    match skipWs s with
    | c :: r =>
      if c = '"' then
        (takeStr r).bind (fun kp =>
          match skipWs kp.2 with
          | c2 :: r2 =>
            if c2 = ':' then
              (parseVal fuel r2).bind (fun vp =>
                match skipWs vp.2 with
                | c3 :: r3 =>
                  if c3 = ',' then
                    (parseFields fuel r3).map (fun q => ((⟨kp.1⟩, vp.1) :: q.1, q.2))
                  else if c3 = '}' then some ([(⟨kp.1⟩, vp.1)], r3)
                  else none
                | [] => none)
            else none
          | [] => none)
      else none
    | [] => none
end

/-- `json.loads` on a whole document.  The fuel `2·length + 2` dominates the
recursion depth of any value a document of that length can denote
(cf. `jsize_le`); it is an implementation artifact of the embedding, not of
the modelled parser. -/
def decodeJ (s : List Char) : Option Json :=
  match parseVal (2 * s.length + 2) s with
  | some (j, r) => if (skipWs r).isEmpty then some j else none
  | none => none

mutual
def jeq : Json → Json → Bool
  | .null, .null => true
  | .bool a, .bool b => a == b
  | .num a, .num b => a == b
  | .str a, .str b => a == b
  | .arr a, .arr b => jeqList a b
  | .obj a, .obj b => jeqFields a b
  | _, _ => false

def jeqList : List Json → List Json → Bool
  | [], [] => true
  | x :: xs, y :: ys => jeq x y && jeqList xs ys
  | _, _ => false

def jeqFields : List (String × Json) → List (String × Json) → Bool
  | [], [] => true
  | (k, v) :: fs, (k2, v2) :: gs => k == k2 && jeq v v2 && jeqFields fs gs
  | _, _ => false
end

mutual
theorem jeq_iff : ∀ a b : Json, jeq a b = true ↔ a = b
  | .null, b => by cases b <;> simp [jeq]
  | .bool x, b => by cases b <;> simp [jeq]
  | .num x, b => by cases b <;> simp [jeq]
  | .str x, b => by cases b <;> simp [jeq]
  | .arr xs, b => by
    cases b with
    | arr ys => simpa only [jeq, Json.arr.injEq] using jeqList_iff xs ys
    | null => simp [jeq]
    | bool y => simp [jeq]
    | num y => simp [jeq]
    | str y => simp [jeq]
    | obj gs => simp [jeq]
  | .obj fs, b => by
    cases b with
    | obj gs => simpa only [jeq, Json.obj.injEq] using jeqFields_iff fs gs
    | null => simp [jeq]
    | bool y => simp [jeq]
    | num y => simp [jeq]
    | str y => simp [jeq]
    | arr ys => simp [jeq]

theorem jeqList_iff : ∀ xs ys : List Json, jeqList xs ys = true ↔ xs = ys
  | [], ys => by cases ys <;> simp [jeqList]
  | x :: xs, [] => by simp [jeqList]
  | x :: xs, y :: ys => by
    simp only [jeqList, Bool.and_eq_true, List.cons.injEq]
    rw [jeq_iff x y, jeqList_iff xs ys]

theorem jeqFields_iff : ∀ fs gs : List (String × Json), jeqFields fs gs = true ↔ fs = gs
  | [], gs => by cases gs <;> simp [jeqFields]
  | f :: fs, [] => by rcases f with ⟨k, v⟩; simp [jeqFields]
  | (k, v) :: fs, (k2, v2) :: gs => by
    simp only [jeqFields, Bool.and_eq_true, List.cons.injEq, Prod.mk.injEq, beq_iff_eq]
    rw [jeq_iff v v2, jeqFields_iff fs gs]
end

instance : DecidableEq Json := fun a b => decidable_of_iff (jeq a b = true) (jeq_iff a b)

instance {ε α : Type} [DecidableEq ε] [DecidableEq α] : DecidableEq (Except ε α) := fun a b =>
  match a, b with
  | .ok x, .ok y =>
    decidable_of_iff (x = y) ⟨fun h => by rw [h], fun h => by cases h; rfl⟩
  | .error x, .error y =>
    decidable_of_iff (x = y) ⟨fun h => by rw [h], fun h => by cases h; rfl⟩
  | .ok _, .error _ => isFalse (fun h => by cases h)
  | .error _, .ok _ => isFalse (fun h => by cases h)

/-! ### Round-trip: `loads (dumps v) = v` on the escape-free fragment -/

theorem skipWs_cons {c : Char} {r : List Char} (h : isWsC c = false) :
    skipWs (c :: r) = c :: r := by
  simp [skipWs, h]

theorem takeStr_append {cs rest : List Char} (h : ∀ c ∈ cs, c ≠ '"') :
    takeStr (cs ++ '"' :: rest) = some (cs, rest) := by
  induction cs with
  | nil => simp [takeStr]
  | cons c cs ih =>
    have hc : c ≠ '"' := h c (List.mem_cons_self _ _)
    simp only [List.cons_append, takeStr, if_neg hc, List.append_eq]
    rw [ih (fun x hx => h x (List.mem_cons_of_mem _ hx))]
    rfl

theorem isDigitC_not_ws {c : Char} (h : isDigitC c = true) : isWsC c = false := by
  simp only [isDigitC, Bool.and_eq_true, decide_eq_true_eq] at h
  simp only [isWsC, Bool.or_eq_false_iff, decide_eq_false_iff_not]
  refine ⟨⟨⟨?_, ?_⟩, ?_⟩, ?_⟩ <;> intro he <;> subst he <;> revert h <;> decide

theorem isDigitC_ne_heads {c : Char} (h : isDigitC c = true) :
    c ≠ 'n' ∧ c ≠ 't' ∧ c ≠ 'f' ∧ c ≠ '"' ∧ c ≠ '-' ∧ c ≠ '[' ∧ c ≠ '{' ∧ c ≠ ']' := by
  refine ⟨?_, ?_, ?_, ?_, ?_, ?_, ?_, ?_⟩ <;> intro he <;> subst he <;> revert h <;> decide

theorem jsize_pos : ∀ j : Json, 1 ≤ jsize j
  | .null => by simp [jsize]
  | .bool _ => by simp [jsize]
  | .num _ => by simp [jsize]
  | .str _ => by simp [jsize]
  | .arr _ => by simp [jsize]; omega
  | .obj _ => by simp [jsize]; omega

/-- The printed form of any value starts with a non-whitespace character
that is not a closing bracket. -/
theorem encJ_head (j : Json) :
    ∃ c t, encJ j = c :: t ∧ isWsC c = false ∧ c ≠ ']' := by
  cases j with
  | null => exact ⟨'n', _, rfl, by decide, by decide⟩
  | bool b => cases b with
    | true => exact ⟨'t', _, rfl, by decide, by decide⟩
    | false => exact ⟨'f', _, rfl, by decide, by decide⟩
  | num n =>
    by_cases h : n < 0
    · refine ⟨'-', natDigits n.natAbs, ?_, by decide, by decide⟩
      simp [encJ, encInt, if_pos h]
    · rcases hnd : natDigits n.natAbs with _ | ⟨d, t⟩
      · exact absurd hnd (natDigits_ne_nil _)
      · have hdd : isDigitC d = true := natDigits_digits _ d (hnd ▸ List.mem_cons_self _ _)
        refine ⟨d, t, ?_, isDigitC_not_ws hdd, (isDigitC_ne_heads hdd).2.2.2.2.2.2.2⟩
        simp [encJ, encInt, if_neg h, hnd]
  | str s => exact ⟨'"', _, rfl, by decide, by decide⟩
  | arr xs => cases xs with
    | nil => exact ⟨'[', _, rfl, by decide, by decide⟩
    | cons x xs => exact ⟨'[', _, rfl, by decide, by decide⟩
  | obj fs => cases fs with
    | nil => exact ⟨'{', _, rfl, by decide, by decide⟩
    | cons f fs => exact ⟨'{', _, rfl, by decide, by decide⟩

theorem noDigitHead_encElems (xs : List Json) (rest : List Char) :
    noDigitHead (encElems xs ++ rest) = true := by
  cases xs with
  | nil => simp [encElems, noDigitHead, isDigitC]
  | cons x xs => simp [encElems, noDigitHead, isDigitC]

theorem noDigitHead_encFields (fs : List (String × Json)) (rest : List Char) :
    noDigitHead (encFields fs ++ rest) = true := by
  cases fs with
  | nil => simp [encFields, noDigitHead, isDigitC]
  | cons f fs => rcases f with ⟨k, v⟩; simp [encFields, noDigitHead, isDigitC]

theorem strOkS_no_quote {s : String} (h : strOkS s = true) : ∀ c ∈ s.data, c ≠ '"' := by
  simp only [strOkS, List.all_eq_true, Bool.and_eq_true, decide_eq_true_eq] at h
  exact fun c hc => (h c hc).1.1

theorem parse_enc (fuel : Nat) :
    (∀ j rest, encOk j = true → noDigitHead rest = true → jsize j ≤ fuel →
      parseVal fuel (encJ j ++ rest) = some (j, rest)) ∧
    (∀ x xs rest, encOk x = true → encOkList xs = true → noDigitHead rest = true →
      1 + jsize x + esize xs ≤ fuel →
      parseElems fuel (encJ x ++ (encElems xs ++ rest)) = some (x :: xs, rest)) ∧
    (∀ k v fs rest, strOkS k = true → encOk v = true → encOkFields fs = true →
      noDigitHead rest = true → 1 + jsize v + fsize fs ≤ fuel →
      parseFields fuel (('"' :: k.data ++ '"' :: ':' :: encJ v) ++ (encFields fs ++ rest)) =
        some ((k, v) :: fs, rest)) := by
  induction fuel with
  | zero =>
    refine ⟨?_, ?_, ?_⟩
    · intro j rest _ _ hsz
      have := jsize_pos j
      omega
    · intro x xs rest _ _ _ hsz
      omega
    · intro k v fs rest _ _ _ _ hsz
      omega
  | succ fuel ih =>
    obtain ⟨ihV, ihE, ihF⟩ := ih
    refine ⟨?_, ?_, ?_⟩
    · intro j rest hok hrest hsz
      cases j with
      | null => exact rfl
      | bool b => cases b with
        | true => exact rfl
        | false => exact rfl
      | num n =>
        by_cases hneg : n < 0
        · have he : encJ (.num n) ++ rest = '-' :: (natDigits n.natAbs ++ rest) := by
            simp [encJ, encInt, if_pos hneg]
          rw [he]
          show (match takeDigits (natDigits n.natAbs ++ rest) with
                | ([], _) => none
                | (ds, r2) => some (Json.num (-(digitsVal ds : Int)), r2)) = some (.num n, rest)
          rw [takeDigits_append (natDigits_digits _) hrest]
          cases hnd : natDigits n.natAbs with
          | nil => exact absurd hnd (natDigits_ne_nil _)
          | cons d t =>
            simp only []
            rw [← hnd, digitsVal_natDigits]
            have hcast : -((n.natAbs : Int)) = n := by omega
            rw [hcast]
        · cases hnd : natDigits n.natAbs with
          | nil => exact absurd hnd (natDigits_ne_nil _)
          | cons d t =>
            have hdd : isDigitC d = true := natDigits_digits _ d (hnd ▸ List.mem_cons_self _ _)
            obtain ⟨hn1, hn2, hn3, hn4, hn5, hn6, hn7, _⟩ := isDigitC_ne_heads hdd
            have he : encJ (.num n) ++ rest = d :: (t ++ rest) := by
              simp [encJ, encInt, if_neg hneg, hnd]
            rw [he]
            simp only [parseVal]
            rw [skipWs_cons (isDigitC_not_ws hdd)]
            simp only [if_neg hn1, if_neg hn2, if_neg hn3, if_neg hn4, if_neg hn5, if_neg hn6,
              if_neg hn7, if_pos hdd]
            rw [show d :: (t ++ rest) = (d :: t) ++ rest from rfl, ← hnd,
              takeDigits_append (natDigits_digits _) hrest]
            rw [hnd]
            simp only []
            rw [← hnd, digitsVal_natDigits]
            have hcast : ((n.natAbs : Nat) : Int) = n := by omega
            rw [hcast]
      | str s0 =>
        simp only [encOk] at hok
        have hq : ∀ c ∈ s0.data, c ≠ '"' := strOkS_no_quote hok
        have he : encJ (.str s0) ++ rest = '"' :: (s0.data ++ ('"' :: rest)) := by
          simp [encJ, List.append_assoc]
        rw [he]
        show (takeStr (s0.data ++ ('"' :: rest))).map (fun p => (Json.str (String.mk p.1), p.2))
            = some (.str s0, rest)
        rw [takeStr_append hq]
        rfl
      | arr xs =>
        cases xs with
        | nil => exact rfl
        | cons x xs =>
          simp only [encOk, encOkList, Bool.and_eq_true] at hok
          obtain ⟨hokx, hokxs⟩ := hok
          simp only [jsize, esize] at hsz
          obtain ⟨c, t, hct, hcw, hcne⟩ := encJ_head x
          have he : encJ (.arr (x :: xs)) ++ rest = '[' :: (encJ x ++ (encElems xs ++ rest)) := by
            simp [encJ, List.append_assoc]
          rw [he]
          show (match skipWs (encJ x ++ (encElems xs ++ rest)) with
                | ']' :: r2 => some (Json.arr [], r2)
                | r1 => (parseElems fuel r1).map (fun p => (Json.arr p.1, p.2)))
              = some (.arr (x :: xs), rest)
          rw [hct, List.cons_append, skipWs_cons hcw]
          split
          · next r2 heq =>
            rw [List.cons.injEq] at heq
            exact absurd heq.1 hcne
          · next r1 heq =>
            rw [← List.cons_append, ← hct,
              ihE x xs rest hokx hokxs hrest (by omega)]
            rfl
      | obj fs =>
        cases fs with
        | nil => exact rfl
        | cons f fs =>
          rcases f with ⟨k, v⟩
          simp only [encOk, encOkFields, Bool.and_eq_true] at hok
          obtain ⟨⟨hk, hv⟩, hfs⟩ := hok
          simp only [jsize, fsize] at hsz
          have he : encJ (.obj ((k, v) :: fs)) ++ rest
              = '{' :: (('"' :: k.data ++ '"' :: ':' :: encJ v) ++ (encFields fs ++ rest)) := by
            simp [encJ, List.append_assoc]
          rw [he]
          show (parseFields fuel (('"' :: k.data ++ '"' :: ':' :: encJ v) ++ (encFields fs ++ rest))).map
                (fun p => (Json.obj p.1, p.2))
              = some (.obj ((k, v) :: fs), rest)
          rw [ihF k v fs rest hk hv hfs hrest (by omega)]
          rfl
    · intro x xs rest hokx hokxs hrest hsz
      have hV := ihV x (encElems xs ++ rest) hokx (noDigitHead_encElems xs rest) (by omega)
      simp only [parseElems]
      rw [hV]
      cases xs with
      | nil => exact rfl
      | cons y ys =>
        show (parseElems fuel ((encJ y ++ encElems ys) ++ rest)).map (fun q => (x :: q.1, q.2))
            = some (x :: y :: ys, rest)
        rw [List.append_assoc]
        simp only [encOkList, Bool.and_eq_true] at hokxs
        have hjx := jsize_pos x
        rw [ihE y ys rest hokxs.1 hokxs.2 hrest (by simp only [esize] at hsz ⊢; omega)]
        rfl
    · intro k v fs rest hks hv hfs hrest hsz
      have hq : ∀ c ∈ k.data, c ≠ '"' := strOkS_no_quote hks
      show (takeStr ((k.data ++ '"' :: ':' :: encJ v) ++ (encFields fs ++ rest))).bind (fun kp =>
          match skipWs kp.2 with
          | c2 :: r2 =>
            if c2 = ':' then
              (parseVal fuel r2).bind (fun vp =>
                match skipWs vp.2 with
                | c3 :: r3 =>
                  if c3 = ',' then
                    (parseFields fuel r3).map (fun q => ((String.mk kp.1, vp.1) :: q.1, q.2))
                  else if c3 = '}' then some ([(String.mk kp.1, vp.1)], r3)
                  else none
                | [] => none)
            else none
          | [] => none) = some ((k, v) :: fs, rest)
      rw [List.append_assoc]
      rw [show ('"' :: ':' :: encJ v) ++ (encFields fs ++ rest)
            = '"' :: (':' :: (encJ v ++ (encFields fs ++ rest))) from by simp]
      rw [takeStr_append hq]
      show (parseVal fuel (encJ v ++ (encFields fs ++ rest))).bind (fun vp =>
          match skipWs vp.2 with
          | c3 :: r3 =>
            if c3 = ',' then
              (parseFields fuel r3).map (fun q => ((String.mk k.data, vp.1) :: q.1, q.2))
            else if c3 = '}' then some ([(String.mk k.data, vp.1)], r3)
            else none
          | [] => none) = some ((k, v) :: fs, rest)
      rw [ihV v (encFields fs ++ rest) hv (noDigitHead_encFields fs rest) (by omega)]
      cases fs with
      | nil => exact rfl
      | cons g gs =>
        rcases g with ⟨k2, v2⟩
        show (parseFields fuel ((('"' :: k2.data ++ '"' :: ':' :: encJ v2) ++ encFields gs) ++ rest)).map
              (fun q => ((String.mk k.data, v) :: q.1, q.2))
            = some ((k, v) :: (k2, v2) :: gs, rest)
        rw [List.append_assoc]
        simp only [encOkFields, Bool.and_eq_true] at hfs
        have hjv := jsize_pos v
        rw [ihF k2 v2 gs rest hfs.1.1 hfs.1.2 hfs.2 hrest
          (by simp only [fsize] at hsz ⊢; omega)]
        rfl

theorem encInt_ne_nil (n : Int) : encInt n ≠ [] := by
  unfold encInt
  by_cases h : n < 0
  · rw [if_pos h]; simp
  · rw [if_neg h]; exact natDigits_ne_nil _

mutual
theorem jsize_le : ∀ j : Json, jsize j ≤ 2 * (encJ j).length
  | .null => by simp [jsize, encJ]
  | .bool b => by cases b <;> simp [jsize, encJ]
  | .num n => by
    have h1 : 1 ≤ (encInt n).length := List.length_pos.mpr (encInt_ne_nil n)
    simp only [jsize, encJ]
    omega
  | .str s => by simp [jsize, encJ]; omega
  | .arr xs => by
    cases xs with
    | nil => simp [jsize, esize, encJ]
    | cons x tl =>
      have hx := jsize_le x
      have htl := esize_le tl
      simp only [jsize, esize, encJ, List.length_cons, List.length_append]
      omega
  | .obj fs => by
    cases fs with
    | nil => simp [jsize, fsize, encJ]
    | cons f tl =>
      rcases f with ⟨k, v⟩
      have hv := jsize_le v
      have htl := fsize_le tl
      simp only [jsize, fsize, encJ, List.length_cons, List.length_append]
      omega

theorem esize_le : ∀ xs : List Json, esize xs + 2 ≤ 2 * (encElems xs).length
  | [] => by simp [esize, encElems]
  | x :: xs => by
    have hx := jsize_le x
    have hxs := esize_le xs
    simp only [esize, encElems, List.length_cons, List.length_append]
    omega

theorem fsize_le : ∀ fs : List (String × Json), fsize fs + 2 ≤ 2 * (encFields fs).length
  | [] => by simp [fsize, encFields]
  | (k, v) :: fs => by
    have hv := jsize_le v
    have hfs := fsize_le fs
    simp only [fsize, encFields, List.length_cons, List.length_append]
    omega
end

/-- Dumps-then-loads is the identity on the escape-free fragment: the parsed
result of an encoded value is structurally the value itself. -/
theorem decodeJ_encJ (j : Json) (h : encOk j = true) : decodeJ (encJ j) = some j := by
  have hp := (parse_enc (2 * (encJ j).length + 2)).1 j [] h rfl
    (by have := jsize_le j; omega)
  rw [List.append_nil] at hp
  unfold decodeJ
  rw [hp]
  rfl

/-! ### Python dict access and the Config Change Detector

`ConfigCache._detect_config_changes` (cache.py:176-206) receives the old and
new rule lists as Python lists of dicts and compares them by `rule_id`,
`rule_config`, `priority` and `status`.  Any exception inside the comparison
(e.g. a `KeyError` from `rule['rule_id']`) is caught and reported as
`False`. -/

/-- Python truthiness of a parsed JSON value. -/
def pyTruthy : Json → Bool
  | .null => false
  | .bool b => b
  | .num n => n != 0
  | .str s => s != ""
  | .arr xs => !xs.isEmpty
  | .obj fs => !fs.isEmpty

/-- `d.get(k)`: `None` when the key is absent. -/
def dGet (d : Dict) (k : String) : Option Json := jLookup d k

/-- `d.get(k, default)`. -/
def dGetD (d : Dict) (k : String) (dflt : Json) : Json := (jLookup d k).getD dflt

/-- `d[k]`: raises `KeyError` when the key is absent. -/
def dItem (d : Dict) (k : String) : Except Unit Json :=
  match jLookup d k with
  | some v => .ok v
  | none => .error ()

/-- `d[k] = v`: replace in place if present, else append (Python dicts keep
the original position of an updated key). -/
def dSet (d : Dict) (k : String) (v : Json) : Dict :=
  match jLookup d k with
  | some _ => d.map (fun p => if p.1 = k then (k, v) else p)
  | none => d ++ [(k, v)]

/-- `json.loads` maps JSON `null` to Python `None`, so `d.get(k)` yields
`None` both for an absent key and for a stored null. -/
def pyOptNorm : Option Json → Option Json
  | some .null => none
  | x => x

/-- Python `==` on two `.get` results (either may be `None`). -/
def optPyEq (a b : Option Json) : Bool :=
  match pyOptNorm a, pyOptNorm b with
  | none, none => true
  | some x, some y => pyEq x y
  | _, _ => false

/-- Python dict keys must be hashable: scalars are, lists/dicts raise
`TypeError`. -/
def jHashable : Json → Bool
  | .arr _ => false
  | .obj _ => false
  | _ => true

/-- Insert into a Python dict keyed by rule ids: an existing key keeps its
position and gets the new value, a fresh key is appended. -/
def mapInsert (m : List (Json × Dict)) (k : Json) (v : Dict) : List (Json × Dict) :=
  if m.any (fun p => p.1 = k) then m.map (fun p => if p.1 = k then (k, v) else p)
  else m ++ [(k, v)]

/-- Dict lookup by rule id. -/
def mapGet (m : List (Json × Dict)) (k : Json) : Option Dict :=
  (m.find? (fun p => p.1 = k)).map Prod.snd

/-- `{rule['rule_id']: rule for rule in rules}` - raises (`.error`) when a
rule lacks `rule_id` or its id is unhashable. -/
def buildRuleMapAux (acc : List (Json × Dict)) : List Dict → Except Unit (List (Json × Dict))
  | [] => .ok acc
  | d :: ds =>
    match dItem d "rule_id" with
    | .error _ => .error ()
    | .ok k => if jHashable k then buildRuleMapAux (mapInsert acc k d) ds else .error ()

def buildRuleMap (rules : List Dict) : Except Unit (List (Json × Dict)) :=
  buildRuleMapAux [] rules

/-- The per-rule comparison in the detector's loop: a rule id missing from
the old map, or any difference in `rule_config` / `priority` / `status`. -/
def ruleEntryChanged (om : List (Json × Dict)) (rid : Json) (nr : Dict) : Bool :=
  match mapGet om rid with
  | none => true
  | some orule =>
    !(optPyEq (dGet orule "rule_config") (dGet nr "rule_config")) ||
    !(optPyEq (dGet orule "priority") (dGet nr "priority")) ||
    !(optPyEq (dGet orule "status") (dGet nr "status"))

/-- Body of `_detect_config_changes`; exceptions propagate as `.error`. -/
def detectConfigChangesE (old new : List Dict) : Except Unit Bool :=
  if old.isEmpty then .ok true
  else
    match buildRuleMap old with
    | .error e => .error e
    | .ok om =>
      match buildRuleMap new with
      | .error e => .error e
      | .ok nm =>
        if old.length ≠ new.length then .ok true
        else .ok (nm.any (fun p => ruleEntryChanged om p.1 p.2))

/-- `ConfigCache._detect_config_changes`: the `except` handler returns
`False` on any error. -/
def detect_config_changes (old new : List Dict) : Bool :=
  match detectConfigChangesE old new with
  | .ok b => b
  | .error _ => false

/-! ### Fast Store (Redis) model

Keys and values are strings; `up = false` models an unreachable store, in
which every client call raises (`Except.error`), matching the `except`
branches of the cache layer.  TTL arguments are accepted and ignored:
time-based expiry is outside the scope of the claims treated here (a key
survives within the window lifetimes that the theorems examine). -/

def lookupKV : List (String × String) → String → Option String
  | [], _ => none
  | (k, v) :: r, key => if k = key then some v else lookupKV r key

def setKV : List (String × String) → String → String → List (String × String)
  | [], k, v => [(k, v)]
  | (k', v') :: r, k, v => if k' = k then (k, v) :: r else (k', v') :: setKV r k v

def delKV : List (String × String) → String → List (String × String)
  | [], _ => []
  | (k', v') :: r, k => if k' = k then delKV r k else (k', v') :: delKV r k

/-- Redis glob matching (`KEYS pattern`), fuel-indexed for structural
recursion; `*` matches any run, `?` one character. -/
def globF : Nat → List Char → List Char → Bool
  | 0, _, _ => false
  | _ + 1, [], [] => true
  | fuel + 1, '*' :: ps, s =>
    globF fuel ps s ||
      (match s with
       | [] => false
       | _ :: s' => globF fuel ('*' :: ps) s')
  | fuel + 1, '?' :: ps, _ :: ss => globF fuel ps ss
  | _ + 1, '?' :: _, [] => false
  | fuel + 1, p :: ps, c :: ss => p = c && globF fuel ps ss
  | _ + 1, _ :: _, [] => false
  | _ + 1, [], _ :: _ => false

def globMatch (pat s : String) : Bool :=
  globF (2 * (pat.data.length + s.data.length) + 1) pat.data s.data

structure Redis where
  up : Bool
  data : List (String × String)
deriving DecidableEq

def Redis.rget (r : Redis) (k : String) : Except Unit (Option String) :=
  if r.up then .ok (lookupKV r.data k) else .error ()

def Redis.rset (r : Redis) (k v : String) (ttl : Option Int) : Except Unit Redis :=
  if r.up then .ok { r with data := setKV r.data k v } else .error ()

def Redis.rdel (r : Redis) (k : String) : Except Unit Redis :=
  if r.up then .ok { r with data := delKV r.data k } else .error ()

/-- `EXPIRE` only touches the (unmodelled) TTL. -/
def Redis.rexpire (r : Redis) (k : String) (ttl : Int) : Except Unit Redis :=
  if r.up then .ok r else .error ()

/-- Atomic `INCR`: an absent key counts as 0; a non-integer value raises. -/
def Redis.rincr (r : Redis) (k : String) : Except Unit (Int × Redis) :=
  if r.up then
    match lookupKV r.data k with
    | none => .ok (1, { r with data := setKV r.data k (intStr 1) })
    | some s =>
      match parseIntStr s with
      | some n => .ok (n + 1, { r with data := setKV r.data k (intStr (n + 1)) })
      | none => .error ()
  else .error ()

/-- `KEYS pattern`. -/
def Redis.rkeys (r : Redis) (pat : String) : Except Unit (List String) :=
  if r.up then .ok ((r.data.map Prod.fst).filter (fun k => globMatch pat k)) else .error ()

/-! ### Relational Store collaborator

Modelled from the spec: the `db_manager` (the Relational Store, spec §2/§6)
is an external collaborator consumed through a narrow per-entity record
interface; the cache layer only ever awaits these calls and treats their
exceptions as `TransientStoreError`.  `up = false` makes every call
raise. -/

structure Db where
  up : Bool
  namespaces : List (Int × Dict)
  matchers : List (Int × Dict)
  rules : List (Int × List Dict)
  nextNamespaceId : Int
  nextMatcherId : Int
deriving DecidableEq

def ilookup {α : Type} : List (Int × α) → Int → Option α
  | [], _ => none
  | (k, v) :: r, key => if k = key then some v else ilookup r key

def iset {α : Type} : List (Int × α) → Int → α → List (Int × α)
  | [], k, v => [(k, v)]
  | (k', v') :: r, k, v => if k' = k then (k, v) :: r else (k', v') :: iset r k v

def Db.getNamespace (db : Db) (i : Int) : Except Unit (Option Dict) :=
  if db.up then .ok (ilookup db.namespaces i) else .error ()

/-- `DatabaseManager.create_namespace` (database.py:235-253): the insert
reads `namespace_data['namespace_code']` and `['namespace_name']` by
subscript, so a payload missing either raises a `KeyError` that the
`except` re-raises; `description` and `status` come from `.get` with
defaults `''` and `1`.  The stored row holds the schema columns plus the
autoincrement id (the wall-clock `create_time`/`update_time` columns are
outside the scope of the claims treated here), and the generated id is
returned. -/
def Db.createNamespace (db : Db) (d : Dict) : Except Unit (Int × Db) :=
  if db.up then
    match dItem d "namespace_code", dItem d "namespace_name" with
    | .ok code, .ok name =>
      .ok (db.nextNamespaceId,
        { db with
          namespaces := db.namespaces ++
            [(db.nextNamespaceId,
              [("namespace_id", .num db.nextNamespaceId),
               ("namespace_code", code),
               ("namespace_name", name),
               ("description", dGetD d "description" (.str "")),
               ("status", dGetD d "status" (.num 1))])],
          nextNamespaceId := db.nextNamespaceId + 1 })
    | _, _ => .error ()
  else .error ()

def Db.updateNamespace (db : Db) (i : Int) (d : Dict) : Except Unit Db :=
  if db.up then .ok { db with namespaces := iset db.namespaces i d } else .error ()

def Db.createMatcher (db : Db) (d : Dict) : Except Unit (Int × Db) :=
  if db.up then
    .ok (db.nextMatcherId,
      { db with
        matchers := db.matchers ++ [(db.nextMatcherId, d)],
        nextMatcherId := db.nextMatcherId + 1 })
  else .error ()

def Db.getMatchersByNamespace (db : Db) (i : Int) : Except Unit (List Dict) :=
  if db.up then
    .ok ((db.matchers.map Prod.snd).filter
      (fun m => optPyEq (dGet m "namespace_id") (some (.num i))))
  else .error ()

def Db.getRulesByNamespace (db : Db) (i : Int) : Except Unit (List Dict) :=
  if db.up then .ok ((ilookup db.rules i).getD []) else .error ()

/-- Process state: the Fast Store client plus the optional `db_manager`. -/
structure St where
  redis : Redis
  db : Option Db
deriving DecidableEq

/-! ### Cache keys (`_get_cache_key`, cache.py:58-60, and the counter keys) -/

/-- `f"config:{data_type}:{data_id}"`. -/
def cacheKey (dataType dataId : String) : String :=
  "config:" ++ dataType ++ ":" ++ dataId

def nsCacheKey (i : Int) : String := cacheKey "namespaces" (intStr i)

def matchersCacheKey (i : Int) : String := cacheKey "matchers" (intStr i)

def rulesCacheKey (i : Int) : String := cacheKey "rules" (intStr i)

/-- `f"rate_limit:{namespace_id}:token:{window_start}"` (read path). -/
def token_counter_key (ns ws : Int) : String :=
  "rate_limit:" ++ intStr ns ++ ":token:" ++ intStr ws

/-- `f"rate_limit:{namespace_id}:qps:{window_start}"` (read path). -/
def qps_counter_key (ns ws : Int) : String :=
  "rate_limit:" ++ intStr ns ++ ":qps:" ++ intStr ws

/-- `f"concurrent:{namespace_id}:current"`. -/
def concurrent_counter_key (ns : Int) : String :=
  "concurrent:" ++ intStr ns ++ ":current"

/-- `str(...)` interpolation of a parsed value into an f-string key (only
numbers and strings occur as rule ids in practice). -/
def pyStrJ : Json → String
  | .num n => intStr n
  | .str s => s
  | .bool b => if b then "True" else "False"
  | .null => "None"
  | .arr _ => "[...]"
  | .obj _ => "\x7b...\x7d"

/-- A whole rule list as stored in the rules cache key (`json.dumps`). -/
def encodeRules (rules : List Dict) : String := ⟨encJ (.arr (rules.map Json.obj))⟩

/-- One dict as stored under a namespace cache key (`json.dumps`). -/
def encodeDict (d : Dict) : String := ⟨encJ (.obj d)⟩

/-- A list of dicts as stored by `safe_json_dumps`. -/
def encodeDictList (ds : List Dict) : String := ⟨encJ (.arr (ds.map Json.obj))⟩

/-! ### Cache-Aside Reader and rule cache (cache.py:69-174, 304-328)

`asyncio.create_task(...)` calls spawn detached fire-and-forget tasks (the
asynchronous cache self-heal and the background MySQL write); they are not
part of the synchronous transition the caller observes and are omitted
here, as the read paths they refresh are re-derived from the stores on the
next call anyway. -/

/-- `json.loads` of a cached rule list.  The rules cache only ever holds
encoded lists of dicts (`set_rules` writes nothing else); any other
content is treated like a parse failure. -/
def asDictList : Json → Option (List Dict)
  | .arr xs => xs.mapM (fun j => match j with | .obj d => some d | _ => none)
  | _ => none

/-- `ConfigCache.set_namespace` (69-80): best-effort cache write, every
exception swallowed. -/
def set_namespace (st : St) (nsId : Int) (d : Dict) (ttl : Option Int) : St :=
  match st.redis.rset (nsCacheKey nsId) (encodeDict d) (some (ttl.getD 3600)) with
  | .ok r => { st with redis := r }
  | .error _ => st

/-- Miss path of `get_namespace`: read MySQL, return its record (the
asynchronous cache refresh is detached). -/
def get_namespace_miss (st : St) (nsId : Int) : Except Unit (Option Json) :=
  match st.db with
  | some db =>
    match db.getNamespace nsId with
    | .error e => .error e
    | .ok (some rec) => if !rec.isEmpty then .ok (some (.obj rec)) else .ok none
    | .ok none => .ok none
  | none => .ok none

/-- The `try` body of `get_namespace` (82-99). -/
def get_namespace_try (st : St) (nsId : Int) : Except Unit (Option Json) :=
  match st.redis.rget (nsCacheKey nsId) with
  | .error e => .error e
  | .ok (some s) =>
    if s ≠ "" then
      match decodeJ s.data with
      | some j => .ok (some j)
      | none => .error ()
    else get_namespace_miss st nsId
  | .ok none => get_namespace_miss st nsId

/-- `ConfigCache.get_namespace` (82-106): cache first, degrade to MySQL in
the `except` handler (whose own failure propagates to the caller). -/
def get_namespace (st : St) (nsId : Int) : Except Unit (Option Json) :=
  match get_namespace_try st nsId with
  | .ok res => .ok res
  | .error _ =>
    match st.db with
    | some db => (db.getNamespace nsId).map (fun o => o.map Json.obj)
    | none => .ok none

/-- `ConfigCache.set_matchers` (120-128): best-effort, exceptions
swallowed. -/
def set_matchers (st : St) (nsId : Int) (matchers : List Dict) (ttl : Option Int) : St :=
  match st.redis.rset (matchersCacheKey nsId) (encodeDictList matchers) (some (ttl.getD 3600)) with
  | .ok r => { st with redis := r }
  | .error _ => st

/-- Miss path of `get_rules` (313-321). -/
def get_rules_miss (st : St) (nsId : Int) : Except Unit (List Dict) :=
  match st.db with
  | some db =>
    match db.getRulesByNamespace nsId with
    | .error e => .error e
    | .ok rules => if !rules.isEmpty then .ok rules else .ok []
  | none => .ok []

/-- The `try` body of `get_rules` (304-321). -/
def get_rules_try (st : St) (nsId : Int) : Except Unit (List Dict) :=
  match st.redis.rget (rulesCacheKey nsId) with
  | .error e => .error e
  | .ok (some s) =>
    if s ≠ "" then
      match (decodeJ s.data).bind asDictList with
      | some rs => .ok rs
      | none => .error ()
    else get_rules_miss st nsId
  | .ok none => get_rules_miss st nsId

/-- `ConfigCache.get_rules` (304-328): cache first, degrade to MySQL in the
`except` handler. -/
def get_rules (st : St) (nsId : Int) : Except Unit (List Dict) :=
  match get_rules_try st nsId with
  | .ok rs => .ok rs
  | .error _ =>
    match st.db with
    | some db => db.getRulesByNamespace nsId
    | none => .ok []

/-! ### Counter Reset Engine (cache.py:208-302) -/

/-- Deletion loop of `_cleanup_old_counters` (296-299); an exception aborts
the loop and is caught, keeping the deletions applied so far. -/
def cleanupLoop : Redis → List String → List String → Redis
  | r, _, [] => r
  | r, exclude, k :: ks =>
    if k ∈ exclude then cleanupLoop r exclude ks
    else
      match r.rdel k with
      | .ok r' => cleanupLoop r' exclude ks
      | .error _ => r

/-- `ConfigCache._cleanup_old_counters` (290-302): delete every key matching
`pat` except the just-written ones; never raises. -/
def cleanup_old_counters (r : Redis) (pat : String) (exclude : List String) : Redis :=
  match r.rkeys pat with
  | .ok ks => cleanupLoop r exclude ks
  | .error _ => r

/-- `ConfigCache._reset_token_counters` (234-254).  With a constant
availability flag an exception can only arise at the first store call, so
returning the pre-call state in the error branch is exact. -/
def reset_token_counters (st : St) (nsId : Int) (ruleId : Json) (currentTime : Int) : St :=
  let hourKey := "rate_limit:" ++ intStr nsId ++ ":" ++ pyStrJ ruleId ++ ":hour:" ++ intStr currentTime
  let dayKey := "rate_limit:" ++ intStr nsId ++ ":" ++ pyStrJ ruleId ++ ":day:" ++ intStr currentTime
  match st.redis.rset hourKey "0" none with
  | .error _ => st
  | .ok r1 =>
    match r1.rset dayKey "0" none with
    | .error _ => st
    | .ok r2 =>
      match r2.rexpire hourKey 7200 with
      | .error _ => st
      | .ok r3 =>
        match r3.rexpire dayKey 172800 with
        | .error _ => st
        | .ok r4 =>
          let r5 := cleanup_old_counters r4
            ("rate_limit:" ++ intStr nsId ++ ":" ++ pyStrJ ruleId ++ ":hour:*") [hourKey]
          let r6 := cleanup_old_counters r5
            ("rate_limit:" ++ intStr nsId ++ ":" ++ pyStrJ ruleId ++ ":day:*") [dayKey]
          { st with redis := r6 }

/-- `ConfigCache._reset_qps_counters` (256-273). -/
def reset_qps_counters (st : St) (nsId : Int) (ruleId : Json) (currentTime : Int) : St :=
  let minuteKey := "rate_limit:" ++ intStr nsId ++ ":qps:" ++ intStr currentTime
  match st.redis.rset minuteKey "0" none with
  | .error _ => st
  | .ok r1 =>
    match r1.rexpire minuteKey 120 with
    | .error _ => st
    | .ok r2 =>
      let r3 := cleanup_old_counters r2
        ("rate_limit:" ++ intStr nsId ++ ":*:minute:*") [minuteKey]
      let r4 := cleanup_old_counters r3
        ("rate_limit:" ++ intStr nsId ++ ":*:qps:*") [minuteKey]
      { st with redis := r4 }

/-- `ConfigCache._reset_concurrent_counters` (275-288). -/
def reset_concurrent_counters (st : St) (nsId : Int) (ruleId : Json) (currentTime : Int) : St :=
  let key := concurrent_counter_key nsId
  match st.redis.rset key "0" none with
  | .error _ => st
  | .ok r1 =>
    { st with redis := cleanup_old_counters r1 ("concurrent:" ++ intStr nsId ++ ":*") [key] }

/-- `rule.get('rule_type') in ['token_limit', 'qps_limit', 'concurrent_limit']`. -/
def isQuotaType (t : Option Json) : Bool :=
  optPyEq t (some (.str "token_limit")) || optPyEq t (some (.str "qps_limit")) ||
    optPyEq t (some (.str "concurrent_limit"))

/-- `ConfigCache._reset_counters_on_config_change` (208-232): walk the new
rule set; a `KeyError` on `rule['rule_id']` is caught by the function's
`except`, aborting the remaining iterations but keeping prior effects. -/
def reset_counters_on_config_change : St → Int → Int → List Dict → St
  | st, _, _, [] => st
  | st, nsId, t, rule :: rest =>
    if isQuotaType (dGet rule "rule_type") then
      match dItem rule "rule_id" with
      | .error _ => st
      | .ok rid =>
        let st1 :=
          if optPyEq (dGet rule "rule_type") (some (.str "token_limit")) then
            reset_token_counters st nsId rid t
          else st
        let st2 :=
          if optPyEq (dGet rule "rule_type") (some (.str "qps_limit")) then
            reset_qps_counters st1 nsId rid t
          else st1
        let st3 :=
          if optPyEq (dGet rule "rule_type") (some (.str "concurrent_limit")) then
            reset_concurrent_counters st2 nsId rid t
          else st2
        reset_counters_on_config_change st3 nsId t rest
    else reset_counters_on_config_change st nsId t rest

/-- `ConfigCache.set_rules` (156-174): read the old rules, detect changes,
write the new rules, and reset counters when the configuration changed;
every exception is swallowed. -/
def set_rules (st : St) (nsId : Int) (rules : List Dict) (currentTime : Int) (ttl : Option Int) : St :=
  match get_rules st nsId with
  | .error _ => st
  | .ok old_rules =>
    let config_changed := detect_config_changes old_rules rules
    match st.redis.rset (rulesCacheKey nsId) (encodeRules rules) (some (ttl.getD 1800)) with
    | .error _ => st
    | .ok r1 =>
      let st1 := { st with redis := r1 }
      if config_changed then reset_counters_on_config_change st1 nsId currentTime rules
      else st1

/-! ### Rate-Limit Counter Engine (cache.py:441-464) -/

/-- `ConfigCache.increment_counter` (441-454): `INCR` then (idempotent)
`EXPIRE`; any failure is caught and reported as 0. -/
def increment_counter (st : St) (counterKey : String) (ttl : Int) : Int × St :=
  match st.redis.rincr counterKey with
  | .error _ => (0, st)
  | .ok (v, r1) =>
    match r1.rexpire counterKey ttl with
    | .ok r2 => (v, { st with redis := r2 })
    | .error _ => (0, { st with redis := r1 })

/-- `ConfigCache.get_counter` (456-464): `int(value) if value else 0`, any
failure caught and reported as 0. -/
def get_counter (st : St) (counterKey : String) : Int :=
  match st.redis.rget counterKey with
  | .error _ => 0
  | .ok none => 0
  | .ok (some v) => if v ≠ "" then (parseIntStr v).getD 0 else 0

/-! ### Dual-Write Mutator (cache.py:577-707)

The MySQL task and the Redis task of one `asyncio.gather` touch disjoint
stores, so composing them sequentially on the state is exact;
`return_exceptions=True` is modelled by matching on each task's
`Except` result. -/

/-- `f"temp:namespace:{datetime.now().timestamp()}"` (the stamp is rendered
as an integer here; its only role is uniqueness of the short-lived key). -/
def temp_namespace_key (stamp : Int) : String := "temp:namespace:" ++ intStr stamp

/-- `ConfigCache._create_default_matcher` (623-659): build the default
matcher from the namespace payload, store it in MySQL and refresh the
matcher cache; every exception is swallowed. -/
def create_default_matcher (st : St) (nsId : Int) (d : Dict) : St :=
  match st.db with
  | none => st
  | some db =>
    let namespace_code := dGetD d "namespace_code" (.str "")
    let namespace_name := dGetD d "namespace_name" (.str "")
    let mcfg := dGetD d "matcher_config" (.obj [])
    match mcfg with
    | .obj mc =>
      let matcher_data : Dict :=
        [("namespace_id", .num nsId),
         ("matcher_name", .str (pyStrJ namespace_name ++ "渠道匹配")),
         ("matcher_type", dGetD mc "matcher_type" (.str "header")),
         ("match_field", dGetD mc "match_field" (.str "channelcode")),
         ("match_operator", dGetD mc "match_operator" (.str "equals")),
         ("match_value", dGetD mc "match_value" namespace_code),
         ("priority", dGetD mc "priority" (.num 100)),
         ("status", .num 1)]
      match db.createMatcher matcher_data with
      | .error _ => st
      | .ok q =>
        let st1 : St := { st with db := some q.2 }
        match q.2.getMatchersByNamespace nsId with
        | .error _ => st1
        | .ok ms => set_matchers st1 nsId ms none
    | _ => st

/-- Tail of `create_namespace_dual_write` (607-617): with a truthy generated
id, write the real cache key and the default matcher and return the id;
otherwise raise (`Exception("MySQL写入失败")`). -/
def create_namespace_finish (st : St) (d : Dict) (nsIdOpt : Option Int) : St × Except Unit Int :=
  match nsIdOpt with
  | some i =>
    if i ≠ 0 then
      let d' := dSet d "namespace_id" (.num i)
      let st1 := set_namespace st i d' none
      let st2 := create_default_matcher st1 i d'
      (st2, .ok i)
    else (st, .error ())
  | none => (st, .error ())

/-- `ConfigCache.create_namespace_dual_write` (577-621): MySQL create and a
temporary Redis staging write issued together; the temp key is deleted when
its write succeeded (that delete's own failure re-raises), and only a truthy
MySQL id leads to the real cache upsert.  Without a `db_manager` the result
loop matches neither index, so the call raises.  The returned state keeps
all effects applied before a raise. -/
def create_namespace_dual_write (st : St) (d : Dict) (tempStamp : Int) : St × Except Unit Int :=
  match st.db with
  | some db =>
    let mysqlRes := db.createNamespace d
    let redisRes := st.redis.rset (temp_namespace_key tempStamp) (encodeDict d) (some 60)
    let p : Option Int × Db :=
      match mysqlRes with
      | .ok q => (some q.1, q.2)
      | .error _ => (none, db)
    let st1 : St := { st with db := some p.2 }
    match redisRes with
    | .ok r1 =>
      match r1.rdel (temp_namespace_key tempStamp) with
      | .ok r2 => create_namespace_finish { st1 with redis := r2 } d p.1
      | .error _ => ({ st1 with redis := r1 }, .error ())
    | .error _ => create_namespace_finish st1 d p.1
  | none =>
    match st.redis.rset (temp_namespace_key tempStamp) (encodeDict d) (some 60) with
    | .ok r1 => ({ st with redis := r1 }, .error ())
    | .error _ => (st, .error ())

/-- `ConfigCache.update_namespace_dual_write` (661-707): MySQL update and
cache upsert together; since `set_namespace` swallows every cache failure,
the gathered Redis task never yields an exception, `redis_success` is
invariably `True`, and the synchronous retry branch (695-701) is
unreachable - the return value is MySQL's success alone.  Without a
`db_manager`, `mysql_success` keeps its initial `True`. -/
def update_namespace_dual_write (st : St) (nsId : Int) (d : Dict) : Bool × St :=
  let d' := dSet d "namespace_id" (.num nsId)
  match st.db with
  | some db =>
    let p : Bool × St :=
      match db.updateNamespace nsId d' with
      | .ok db2 => (true, { st with db := some db2 })
      | .error _ => (false, st)
    let st2 := set_namespace p.2 nsId d' none
    (p.1, st2)
  | none => (true, set_namespace st nsId d' none)

/-! ### Usage/Timeline Reporter (cache.py:959-1038) -/

/-- Python `//`: floor division, raising on a zero divisor. -/
def pyFloorDiv (a b : Int) : Except Unit Int :=
  if b = 0 then .error () else .ok (Int.fdiv a b)

/-- Using a parsed value as a number: `int` and `bool` work (Python `bool`
is an `int`), anything else raises a `TypeError` in the comparison. -/
def jToInt : Json → Except Unit Int
  | .num n => .ok n
  | .bool b => .ok (if b then 1 else 0)
  | _ => .error ()

/-- Python `a or b` where `a` is a `.get` result. -/
def pyOrO (a : Option Json) (b : Json) : Json :=
  match a with
  | some j => if pyTruthy j then j else b
  | none => b

/-- `rule_config.get("max_tokens_per_hour") or rule_config.get("max_tokens_per_window", 0)`. -/
def tokenMax (cfg : Dict) : Except Unit Int :=
  jToInt (pyOrO (dGet cfg "max_tokens_per_hour") (dGetD cfg "max_tokens_per_window" (.num 0)))

structure TokenUsage where
  current_usage : Int
  max_limit : Int
  usage_percentage : ℚ
  window_start : Int
  window_end : Int
  remaining : Int
deriving DecidableEq

/-- `ConfigCache._get_token_usage` (959-986).  The percentage is the
conditional expression `(current / max * 100) if max > 0 else 0`, so the
division is evaluated only under the positive guard; real division is
modelled in `ℚ`.  The `except` handler (returning an error payload) is the
`none` case. -/
def get_token_usage (st : St) (nsId : Int) (cfg : Dict) (currentTime windowMinutes : Int) :
    Option TokenUsage :=
  let window_size := windowMinutes * 60
  match pyFloorDiv currentTime window_size with
  | .error _ => none
  | .ok q =>
    let window_start := q * window_size
    let current_usage := get_counter st (token_counter_key nsId window_start)
    match tokenMax cfg with
    | .error _ => none
    | .ok max_tokens =>
      some ⟨current_usage, max_tokens,
        if max_tokens > 0 then (current_usage : ℚ) / (max_tokens : ℚ) * 100 else 0,
        window_start, window_start + window_size,
        if max_tokens > current_usage then max_tokens - current_usage else 0⟩

structure ConcurrentUsage where
  current_usage : Int
  max_limit : Int
  usage_percentage : ℚ
  remaining : Int
deriving DecidableEq

/-- `ConfigCache._get_concurrent_usage` (1017-1038). -/
def get_concurrent_usage (st : St) (nsId : Int) (cfg : Dict) (currentTime : Int) :
    Option ConcurrentUsage :=
  let current_usage := get_counter st (concurrent_counter_key nsId)
  match jToInt (dGetD cfg "max_connections" (.num 0)) with
  | .error _ => none
  | .ok mx =>
    some ⟨current_usage, mx,
      if mx > 0 then (current_usage : ℚ) / (mx : ℚ) * 100 else 0,
      if mx > current_usage then mx - current_usage else 0⟩

/-- `json.loads` of a cached rules entry, as a rule list. -/
def decodeRules (s : String) : Option (List Dict) := (decodeJ s.data).bind asDictList

/-- `{rule.get('rule_id') for each rule}`, failing when one is absent. -/
def ruleIds : List Dict → Option (List Json)
  | [] => some []
  | d :: ds =>
    match dGet d "rule_id", ruleIds ds with
    | some i, some is => some (i :: is)
    | _, _ => none

/-! ### Concrete scenario data (used by the closed theorems and witnesses) -/

/-- The `wechat` scenario of the spec: a `token_limit` rule whose hourly
maximum is raised from 10 to 20. -/
def old_token_rule : Dict :=
  [("rule_id", .num 1), ("rule_type", .str "token_limit"),
   ("rule_config", .obj [("max_tokens_per_hour", .num 10)]),
   ("priority", .num 100), ("status", .num 1)]

def new_token_rule : Dict :=
  [("rule_id", .num 1), ("rule_type", .str "token_limit"),
   ("rule_config", .obj [("max_tokens_per_hour", .num 20)]),
   ("priority", .num 100), ("status", .num 1)]

/-- Pre-state of the reset scenario: namespace 1 has the old rule cached and
its current hourly token window (window start 3600 at time 3605, hourly
windows) holds the counter value 7. -/
def resetScenarioSt : St :=
  { redis := { up := true,
               data := [(rulesCacheKey 1, encodeRules [old_token_rule]),
                        (token_counter_key 1 3600, intStr 7)] },
    db := none }

/-- A small live state with one concurrent counter. -/
def counterSt : St :=
  { redis := { up := true, data := [(concurrent_counter_key 2, intStr 5)] }, db := none }

/-- A state whose Fast Store is unreachable. -/
def downRedisDb : Db :=
  { up := true,
    namespaces := [(1, [("namespace_id", .num 1), ("namespace_code", .str "wechat"),
                        ("namespace_name", .str "WeChat"), ("status", .num 1)])],
    matchers := [], rules := [], nextNamespaceId := 2, nextMatcherId := 1 }

def downRedisSt : St :=
  { redis := { up := false, data := [] }, db := some downRedisDb }

/-- A healthy two-store state with an empty cache. -/
def healthySt : St :=
  { redis := { up := true, data := [] },
    db := some { up := true, namespaces := [], matchers := [], rules := [],
                 nextNamespaceId := 7, nextMatcherId := 1 } }

/-! ### Store lemmas -/

theorem lookupKV_setKV_self (l : List (String × String)) (k v : String) :
    lookupKV (setKV l k v) k = some v := by
  induction l with
  | nil => simp [setKV, lookupKV]
  | cons p r ih =>
    rcases p with ⟨k', v'⟩
    by_cases h : k' = k
    · simp [setKV, h, lookupKV]
    · simp only [setKV, if_neg h, lookupKV]
      exact ih

theorem lookupKV_setKV_other (l : List (String × String)) {k' k : String} (v : String)
    (h : k' ≠ k) : lookupKV (setKV l k' v) k = lookupKV l k := by
  induction l with
  | nil => simp [setKV, lookupKV, if_neg h]
  | cons p r ih =>
    rcases p with ⟨k0, v0⟩
    by_cases h0 : k0 = k'
    · subst h0
      simp only [setKV, if_pos rfl, lookupKV, if_neg h]
    · simp only [setKV, if_neg h0, lookupKV]
      by_cases h1 : k0 = k
      · rw [if_pos h1, if_pos h1]
      · rw [if_neg h1, if_neg h1]
        exact ih

theorem lookupKV_delKV_other (l : List (String × String)) {k' k : String} (h : k' ≠ k) :
    lookupKV (delKV l k') k = lookupKV l k := by
  induction l with
  | nil => simp [delKV]
  | cons p r ih =>
    rcases p with ⟨k0, v0⟩
    simp only [delKV]
    by_cases h0 : k0 = k'
    · rw [if_pos h0, ih]
      have h1 : k0 ≠ k := by rw [h0]; exact h
      simp only [lookupKV, if_neg h1]
    · rw [if_neg h0]
      simp only [lookupKV]
      by_cases h1 : k0 = k
      · rw [if_pos h1, if_pos h1]
      · rw [if_neg h1, if_neg h1]
        exact ih

theorem cleanupLoop_up (exclude : List String) :
    ∀ (r : Redis) (ks : List String), (cleanupLoop r exclude ks).up = r.up := by
  intro r ks
  induction ks generalizing r with
  | nil => rfl
  | cons k ks ih =>
    simp only [cleanupLoop]
    by_cases hm : k ∈ exclude
    · rw [if_pos hm]; exact ih r
    · rw [if_neg hm]
      unfold Redis.rdel
      by_cases hup : r.up
      · rw [if_pos hup]
        simp only []
        rw [ih]
      · rw [if_neg hup]

theorem cleanupLoop_preserves (exclude : List String) {k : String} (hk : k ∈ exclude) :
    ∀ (r : Redis) (ks : List String),
      lookupKV (cleanupLoop r exclude ks).data k = lookupKV r.data k := by
  intro r ks
  induction ks generalizing r with
  | nil => rfl
  | cons k' ks ih =>
    simp only [cleanupLoop]
    by_cases hm : k' ∈ exclude
    · rw [if_pos hm]; exact ih r
    · rw [if_neg hm]
      have hne : k' ≠ k := fun he => hm (he ▸ hk)
      unfold Redis.rdel
      by_cases hup : r.up
      · rw [if_pos hup]
        simp only []
        rw [ih]
        exact lookupKV_delKV_other _ hne
      · rw [if_neg hup]

theorem cleanup_up (r : Redis) (pat : String) (exclude : List String) :
    (cleanup_old_counters r pat exclude).up = r.up := by
  unfold cleanup_old_counters
  unfold Redis.rkeys
  by_cases hup : r.up
  · rw [if_pos hup]
    exact cleanupLoop_up _ _ _
  · rw [if_neg hup]

theorem cleanup_preserves (r : Redis) (pat : String) (exclude : List String) {k : String}
    (hk : k ∈ exclude) :
    lookupKV (cleanup_old_counters r pat exclude).data k = lookupKV r.data k := by
  unfold cleanup_old_counters
  unfold Redis.rkeys
  by_cases hup : r.up
  · rw [if_pos hup]
    exact cleanupLoop_preserves _ hk _ _
  · rw [if_neg hup]

theorem parseIntStr_ne_empty {s : String} {n : Int} (h : parseIntStr s = some n) : s ≠ "" := by
  intro he
  subst he
  simp [parseIntStr] at h

/-! ### Counter engine lemmas -/

theorem get_counter_increment_mono (st : St) (k : String) (ttl : Int) :
    get_counter st k ≤ get_counter (increment_counter st k ttl).2 k := by
  obtain ⟨⟨up, data⟩, db⟩ := st
  cases up with
  | false => exact le_refl (get_counter ⟨⟨false, data⟩, db⟩ k)
  | true =>
    cases hlk : lookupKV data k with
    | none =>
      have hinc : increment_counter ⟨⟨true, data⟩, db⟩ k ttl
          = (1, ⟨⟨true, setKV data k (intStr 1)⟩, db⟩) := by
        unfold increment_counter Redis.rincr Redis.rexpire
        simp only [if_true, hlk]
      rw [hinc]
      unfold get_counter Redis.rget
      simp only [if_true, hlk, lookupKV_setKV_self]
      rw [if_pos (parseIntStr_ne_empty (parseIntStr_intStr 1)), parseIntStr_intStr]
      simp
    | some s =>
      cases hp : parseIntStr s with
      | none =>
        have hinc : increment_counter ⟨⟨true, data⟩, db⟩ k ttl = (0, ⟨⟨true, data⟩, db⟩) := by
          unfold increment_counter Redis.rincr
          simp only [if_true, hlk, hp]
        rw [hinc]
      | some n =>
        have hinc : increment_counter ⟨⟨true, data⟩, db⟩ k ttl
            = (n + 1, ⟨⟨true, setKV data k (intStr (n + 1))⟩, db⟩) := by
          unfold increment_counter Redis.rincr Redis.rexpire
          simp only [if_true, hlk, hp]
        rw [hinc]
        unfold get_counter Redis.rget
        simp only [if_true, hlk, lookupKV_setKV_self]
        rw [if_pos (parseIntStr_ne_empty hp), hp,
          if_pos (parseIntStr_ne_empty (parseIntStr_intStr (n + 1))), parseIntStr_intStr]
        simp

theorem reset_concurrent_zero (st : St) (ns : Int) (rid : Json) (t : Int)
    (hup : st.redis.up = true) :
    get_counter (reset_concurrent_counters st ns rid t) (concurrent_counter_key ns) = 0 := by
  obtain ⟨⟨up, data⟩, db⟩ := st
  simp only [] at hup
  subst hup
  unfold reset_concurrent_counters Redis.rset
  simp only [if_true]
  unfold get_counter Redis.rget
  rw [if_pos]
  · rw [cleanup_preserves _ _ _ (List.mem_singleton.mpr rfl), lookupKV_setKV_self]
    decide
  · rw [cleanup_up]

/-- Claim C6: within a window's lifetime a counter never decreases under
`increment_counter`, and the only write that lowers it is the explicit
configuration-change reset, which sets it to 0 (shown on the concurrent
counter, whose reset targets exactly the key the read path uses). -/
theorem c6_counter_monotone_except_reset :
    (∀ (st : St) (k : String) (ttl : Int),
      get_counter st k ≤ get_counter (increment_counter st k ttl).2 k) ∧
    (∀ (st : St) (ns : Int) (rid : Json) (t : Int), st.redis.up = true →
      get_counter (reset_concurrent_counters st ns rid t) (concurrent_counter_key ns) = 0) :=
  ⟨get_counter_increment_mono, reset_concurrent_zero⟩

theorem c6_witness :
    counterSt.redis.up = true ∧
    get_counter counterSt (concurrent_counter_key 2)
      ≤ get_counter (increment_counter counterSt (concurrent_counter_key 2) 3600).2
          (concurrent_counter_key 2) ∧
    get_counter (reset_concurrent_counters counterSt 2 (.num 9) 100)
      (concurrent_counter_key 2) = 0 :=
  ⟨by decide,
   c6_counter_monotone_except_reset.1 counterSt (concurrent_counter_key 2) 3600,
   c6_counter_monotone_except_reset.2 counterSt 2 (.num 9) 100 (by decide)⟩

/-- Claim C9 (implicit): the counter engine never propagates an exception -
with the Fast Store down, `increment_counter` returns 0 leaving the state
unchanged and `get_counter` returns 0; with the store up, an absent key
reads as 0 while its first increment returns 1 - so a 0 from increment is
the only sign the count was not applied, and a 0 read is indistinguishable
from zero usage. -/
theorem c9_counter_errors_return_zero :
    ∀ (st : St) (k : String) (ttl : Int),
    (st.redis.up = false → increment_counter st k ttl = (0, st)) ∧
    (st.redis.up = false → get_counter st k = 0) ∧
    (st.redis.up = true → lookupKV st.redis.data k = none → get_counter st k = 0) ∧
    (st.redis.up = true → lookupKV st.redis.data k = none →
      (increment_counter st k ttl).1 = 1) := by
  intro st k ttl
  obtain ⟨⟨up, data⟩, db⟩ := st
  refine ⟨?_, ?_, ?_, ?_⟩
  · intro h
    simp only [] at h
    subst h
    rfl
  · intro h
    simp only [] at h
    subst h
    rfl
  · intro h hlk
    simp only [] at h hlk
    subst h
    unfold get_counter Redis.rget
    simp only [if_true, hlk]
  · intro h hlk
    simp only [] at h hlk
    subst h
    unfold increment_counter Redis.rincr Redis.rexpire
    simp only [if_true, hlk]

theorem c9_witness :
    downRedisSt.redis.up = false ∧
    increment_counter downRedisSt "x" 3600 = (0, downRedisSt) ∧
    get_counter downRedisSt "x" = 0 ∧
    healthySt.redis.up = true ∧
    lookupKV healthySt.redis.data "x" = none ∧
    get_counter healthySt "x" = 0 ∧
    (increment_counter healthySt "x" 3600).1 = 1 :=
  ⟨by decide,
   (c9_counter_errors_return_zero downRedisSt "x" 3600).1 (by decide),
   (c9_counter_errors_return_zero downRedisSt "x" 3600).2.1 (by decide),
   by decide, by decide,
   (c9_counter_errors_return_zero healthySt "x" 3600).2.2.1 (by decide) (by decide),
   (c9_counter_errors_return_zero healthySt "x" 3600).2.2.2 (by decide) (by decide)⟩

/-- Claim C7: usage reporting treats `maxLimit = 0` as unlimited - the
percentage is 0 and no division error is raised (the call returns a usage
record, not the error payload) - and for a positive limit it is
`current / max * 100` (shown for both the token and the concurrent
reporters). -/
theorem c7_usage_percent_guard :
    ∀ (st : St) (ns : Int) (cfg cfg2 : Dict) (t wm : Int), wm ≠ 0 →
    (tokenMax cfg = .ok 0 →
      (get_token_usage st ns cfg t wm).map TokenUsage.usage_percentage = some 0) ∧
    (∀ m, tokenMax cfg = .ok m → 0 < m →
      (get_token_usage st ns cfg t wm).map TokenUsage.usage_percentage
        = some ((get_counter st (token_counter_key ns (t.fdiv (wm * 60) * (wm * 60))) : ℚ)
            / (m : ℚ) * 100)) ∧
    (jToInt (dGetD cfg2 "max_connections" (.num 0)) = .ok 0 →
      (get_concurrent_usage st ns cfg2 t).map ConcurrentUsage.usage_percentage = some 0) ∧
    (∀ m, jToInt (dGetD cfg2 "max_connections" (.num 0)) = .ok m → 0 < m →
      (get_concurrent_usage st ns cfg2 t).map ConcurrentUsage.usage_percentage
        = some ((get_counter st (concurrent_counter_key ns) : ℚ) / (m : ℚ) * 100)) := by
  intro st ns cfg cfg2 t wm hwm
  have hws : ¬(wm * 60 = 0) := by omega
  refine ⟨?_, ?_, ?_, ?_⟩
  · intro hmax
    unfold get_token_usage pyFloorDiv
    simp only [if_neg hws, hmax, Option.map_some']
    norm_num
  · intro m hmax hpos
    unfold get_token_usage pyFloorDiv
    simp only [if_neg hws, hmax, Option.map_some']
    rw [if_pos hpos]
  · intro hmax
    unfold get_concurrent_usage
    simp only [hmax, Option.map_some']
    norm_num
  · intro m hmax hpos
    unfold get_concurrent_usage
    simp only [hmax, Option.map_some']
    rw [if_pos hpos]

theorem c7_witness :
    (10 : Int) ≠ 0 ∧
    tokenMax [("max_tokens_per_hour", Json.num 0)] = .ok 0 ∧
    (get_token_usage counterSt 1 [("max_tokens_per_hour", Json.num 0)] 700 10).map
      TokenUsage.usage_percentage = some 0 ∧
    tokenMax [("max_tokens_per_hour", Json.num 20)] = .ok 20 ∧
    (get_token_usage counterSt 1 [("max_tokens_per_hour", Json.num 20)] 700 10).map
      TokenUsage.usage_percentage
      = some ((get_counter counterSt
          (token_counter_key 1 ((700 : Int).fdiv (10 * 60) * (10 * 60))) : ℚ) / (20 : ℚ) * 100) ∧
    (get_concurrent_usage counterSt 2 [("max_connections", Json.num 10)] 700).map
      ConcurrentUsage.usage_percentage
      = some ((get_counter counterSt (concurrent_counter_key 2) : ℚ) / (10 : ℚ) * 100) :=
  ⟨by decide, by decide,
   (c7_usage_percent_guard counterSt 1 [("max_tokens_per_hour", Json.num 0)]
      [] 700 10 (by decide)).1 (by decide),
   by decide,
   ((c7_usage_percent_guard counterSt 1 [("max_tokens_per_hour", Json.num 20)]
      [] 700 10 (by decide)).2.1) 20 (by decide) (by decide),
   ((c7_usage_percent_guard counterSt 2 [] [("max_connections", Json.num 10)]
      700 10 (by decide)).2.2.2) 10 (by decide) (by decide)⟩

/-- Claim C8: with the Fast Store unreachable (every cache call raising),
the cache-aside read still returns the record held by the Relational Store,
via the `except` fallback, and does not raise. -/
theorem c8_cache_down_read_degrades :
    ∀ (st : St) (db : Db) (nsId : Int) (rec : Dict),
    st.redis.up = false → st.db = some db → db.up = true →
    ilookup db.namespaces nsId = some rec →
    get_namespace st nsId = .ok (some (.obj rec)) := by
  intro st db nsId rec hdown hdb hup hlk
  unfold get_namespace get_namespace_try Redis.rget
  rw [hdown]
  simp only [Bool.false_eq_true, if_false]
  rw [hdb]
  simp only []
  unfold Db.getNamespace
  rw [hup]
  simp only [if_true, hlk]
  rfl

theorem c8_witness :
    downRedisSt.redis.up = false ∧
    downRedisSt.db = some downRedisDb ∧
    downRedisDb.up = true ∧
    ilookup downRedisDb.namespaces 1
      = some [("namespace_id", .num 1), ("namespace_code", .str "wechat"),
              ("namespace_name", .str "WeChat"), ("status", .num 1)] ∧
    get_namespace downRedisSt 1
      = .ok (some (.obj [("namespace_id", .num 1), ("namespace_code", .str "wechat"),
                         ("namespace_name", .str "WeChat"), ("status", .num 1)])) :=
  ⟨by decide, by decide, by decide, by decide,
   c8_cache_down_read_degrades downRedisSt downRedisDb 1 _
     (by decide) (by decide) (by decide) (by decide)⟩

/-- Claim C4: when the Relational Store write succeeds but the Fast Store is
down (so the cache upsert fails, as would any retry of it), the update still
returns success and the cache is left untouched ("cache pending", healed by
a later cache-aside miss).  In the source this is immediate: `set_namespace`
swallows every cache error, so `redis_success` can never be `False`. -/
theorem c4_update_success_cache_pending :
    ∀ (st : St) (db : Db) (nsId : Int) (d : Dict),
    st.db = some db → db.up = true → st.redis.up = false →
    (update_namespace_dual_write st nsId d).1 = true ∧
    (update_namespace_dual_write st nsId d).2.redis.data = st.redis.data := by
  intro st db nsId d hdb hup hdown
  unfold update_namespace_dual_write Db.updateNamespace
  rw [hdb]
  simp only [hup, if_true]
  unfold set_namespace Redis.rset
  simp only [hdown, Bool.false_eq_true, if_false]
  constructor <;> trivial

theorem c4_witness :
    downRedisSt.db = some downRedisDb ∧
    downRedisDb.up = true ∧
    downRedisSt.redis.up = false ∧
    (update_namespace_dual_write downRedisSt 1 [("namespace_name", .str "WeChat2")]).1 = true ∧
    (update_namespace_dual_write downRedisSt 1
        [("namespace_name", .str "WeChat2")]).2.redis.data = downRedisSt.redis.data :=
  ⟨by decide, by decide, by decide,
   (c4_update_success_cache_pending downRedisSt downRedisDb 1 _
     (by decide) (by decide) (by decide)).1,
   (c4_update_success_cache_pending downRedisSt downRedisDb 1 _
     (by decide) (by decide) (by decide)).2⟩

/-! ### Detector lemmas -/

theorem buildRuleMapAux_error {l : List Dict} (h : ∃ d ∈ l, dGet d "rule_id" = none) :
    ∀ acc, buildRuleMapAux acc l = .error () := by
  induction l with
  | nil => simp at h
  | cons d ds ih =>
    intro acc
    unfold buildRuleMapAux dItem
    obtain ⟨d0, hd0, hnone⟩ := h
    rw [List.mem_cons] at hd0
    unfold dGet at hnone
    rcases hd0 with he | hmem
    · subst he
      rw [hnone]
    · cases hj : jLookup d "rule_id" with
      | none => rfl
      | some k =>
        simp only []
        by_cases hh : jHashable k = true
        · rw [if_pos hh]
          exact ih ⟨d0, hmem, hnone⟩ _
        · rw [if_neg hh]

/-- Claim C10 (implicit): an empty old rule set always reports a change,
regardless of the new rules; and if evaluating the comparison raises (a
rule record lacking `rule_id` in either set, with a non-empty old set), the
detector returns `false`, suppressing change detection and hence the
counter reset. -/
theorem c10_detector_error_and_empty :
    (∀ new, detect_config_changes [] new = true) ∧
    (∀ old new, old ≠ [] →
      ((∃ d ∈ old, dGet d "rule_id" = none) ∨ (∃ d ∈ new, dGet d "rule_id" = none)) →
      detect_config_changes old new = false) := by
  constructor
  · intro new
    rfl
  · intro old new hne hmiss
    have hie : old.isEmpty = false := by
      cases old with
      | nil => cases hne rfl
      | cons d ds => rfl
    unfold detect_config_changes detectConfigChangesE
    rw [hie]
    simp only [Bool.false_eq_true, if_false]
    rcases hmiss with h | h
    · rw [show buildRuleMap old = .error () from buildRuleMapAux_error h []]
    · cases hbm : buildRuleMap old with
      | error e => rfl
      | ok om =>
        simp only []
        rw [show buildRuleMap new = .error () from buildRuleMapAux_error h []]

theorem c10_witness :
    ([([("rule_type", Json.str "token_limit")] : Dict)] ≠ ([] : List Dict)) ∧
    (∃ d ∈ [([("rule_type", Json.str "token_limit")] : Dict)], dGet d "rule_id" = none) ∧
    detect_config_changes [] [old_token_rule] = true ∧
    detect_config_changes [[("rule_type", Json.str "token_limit")]] [new_token_rule] = false :=
  ⟨by decide, ⟨[("rule_type", Json.str "token_limit")], by decide, by decide⟩,
   c10_detector_error_and_empty.1 [old_token_rule],
   c10_detector_error_and_empty.2 [[("rule_type", Json.str "token_limit")]] [new_token_rule]
     (by decide) (Or.inl ⟨[("rule_type", Json.str "token_limit")], by decide, by decide⟩)⟩

theorem asDictList_map_obj (ds : List Dict) : asDictList (.arr (ds.map Json.obj)) = some ds := by
  unfold asDictList
  induction ds with
  | nil => rfl
  | cons d tl ih =>
    simp only [List.map_cons, List.mapM_cons]
    simp only [asDictList] at ih
    rw [ih]
    rfl

theorem optPyEq_self (o : Option Json) (h : ∀ v, o = some v → jsonWF v = true) :
    optPyEq o o = true := by
  cases o with
  | none => rfl
  | some v =>
    cases v with
    | null => rfl
    | bool b => exact pyEq_refl _ (h _ rfl)
    | num n => exact pyEq_refl _ (h _ rfl)
    | str s => exact pyEq_refl _ (h _ rfl)
    | arr xs => exact pyEq_refl _ (h _ rfl)
    | obj fs => exact pyEq_refl _ (h _ rfl)

theorem buildRuleMap_singleton {r : Dict} {i : Json} (hi : jLookup r "rule_id" = some i)
    (hh : jHashable i = true) : buildRuleMap [r] = .ok [(i, r)] := by
  unfold buildRuleMap buildRuleMapAux dItem
  rw [hi]
  simp only [hh, if_true, mapInsert, List.any_nil, List.nil_append]
  rfl

theorem optPyEq_dGet_self (r : Dict) (k : String) (hwf : jsonWFFields r = true) :
    optPyEq (dGet r k) (dGet r k) = true := by
  apply optPyEq_self
  intro v hv
  unfold dGet at hv
  have hmem : (k, v) ∈ r := by
    clear hwf
    induction r with
    | nil => cases hv
    | cons p tl ih =>
      rcases p with ⟨k0, v0⟩
      unfold jLookup at hv
      by_cases he : k0 = k
      · rw [if_pos he] at hv
        cases hv
        subst he
        exact List.mem_cons_self _ _
      · rw [if_neg he] at hv
        exact List.mem_cons_of_mem _ (ih hv)
  exact jsonWFFields_mem hwf (k, v) hmem

/-- With a present, hashable rule id and well-formed payloads, comparing a
rule list against itself reports no change. -/
theorem detect_self_false {r : Dict} {i : Json} (hwf : jsonWFFields r = true)
    (hi : dGet r "rule_id" = some i) (hh : jHashable i = true) :
    detect_config_changes [r] [r] = false := by
  unfold dGet at hi
  unfold detect_config_changes detectConfigChangesE
  rw [buildRuleMap_singleton hi hh]
  simp only [List.isEmpty_cons, Bool.false_eq_true, if_false, List.length_singleton, ne_eq,
    not_true_eq_false]
  simp only [List.any_cons, List.any_nil, Bool.or_false]
  unfold ruleEntryChanged mapGet
  have hfind : List.find? (fun p => decide (p.1 = i)) [((i, r) : Json × Dict)] = some (i, r) := by
    simp [List.find?]
  rw [hfind]
  simp only [Option.map_some']
  rw [optPyEq_dGet_self r "rule_config" hwf, optPyEq_dGet_self r "priority" hwf,
    optPyEq_dGet_self r "status" hwf]
  rfl

/-- Claim C2: serialising a rule and parsing it back leaves the change
detector reporting no change - `changed([R], [loads(dumps([R]))]) = false` -
because payload equality is computed on the parsed structural form. -/
theorem c2_roundtrip_no_change :
    ∀ (r : Dict) (i : Json),
    encOkFields r = true → jsonWFFields r = true →
    dGet r "rule_id" = some i → jHashable i = true →
    detect_config_changes [r] ((decodeRules (encodeRules [r])).getD []) = false := by
  intro r i henc hwf hi hh
  have hround : decodeRules (encodeRules [r]) = some [r] := by
    unfold decodeRules encodeRules
    have hok : encOk (.arr ([r].map Json.obj)) = true := by
      simp only [List.map_cons, List.map_nil, encOk, encOkList, Bool.and_eq_true]
      exact ⟨henc, trivial⟩
    rw [show (String.mk (encJ (.arr ([r].map Json.obj)))).data
        = encJ (.arr ([r].map Json.obj)) from rfl]
    rw [decodeJ_encJ _ hok]
    show asDictList (.arr ([r].map Json.obj)) = some [r]
    exact asDictList_map_obj [r]
  rw [hround]
  exact detect_self_false hwf hi hh

theorem c2_witness :
    encOkFields old_token_rule = true ∧
    jsonWFFields old_token_rule = true ∧
    dGet old_token_rule "rule_id" = some (.num 1) ∧
    jHashable (.num 1) = true ∧
    detect_config_changes [old_token_rule]
      ((decodeRules (encodeRules [old_token_rule])).getD []) = false :=
  ⟨by decide, by decide, by decide, by decide,
   c2_roundtrip_no_change old_token_rule (.num 1) (by decide) (by decide) (by decide) (by decide)⟩

theorem any_keys_eq_false {m : List (Json × Dict)} {k : Json}
    (h : k ∉ m.map Prod.fst) : (m.any fun p => p.1 = k) = false := by
  induction m with
  | nil => rfl
  | cons p tl ih =>
    simp only [List.map_cons, List.mem_cons, not_or] at h
    simp only [List.any_cons, Bool.or_eq_false_iff]
    refine ⟨?_, ih h.2⟩
    simp only [decide_eq_false_iff_not]
    exact fun he => h.1 (he ▸ rfl)

theorem buildRuleMapAux_zip :
    ∀ (l : List Dict) (ids : List Json) (acc : List (Json × Dict)),
    ruleIds l = some ids →
    (∀ j ∈ ids, jHashable j = true) →
    (acc.map Prod.fst ++ ids).Nodup →
    buildRuleMapAux acc l = .ok (acc ++ ids.zip l) := by
  intro l
  induction l with
  | nil =>
    intro ids acc hids _ _
    simp only [ruleIds] at hids
    cases hids
    simp [buildRuleMapAux]
  | cons d ds ih =>
    intro ids acc hids hh hnd
    simp only [ruleIds] at hids
    cases hgi : dGet d "rule_id" with
    | none => rw [hgi] at hids; cases hids
    | some i =>
      rw [hgi] at hids
      cases hri : ruleIds ds with
      | none => rw [hri] at hids; cases hids
      | some is =>
        rw [hri] at hids
        simp only [Option.some.injEq] at hids
        subst hids
        unfold buildRuleMapAux dItem
        unfold dGet at hgi
        rw [hgi]
        simp only [hh i (List.mem_cons_self _ _), if_true]
        have hkey : i ∉ acc.map Prod.fst := by
          intro hmem
          rw [List.nodup_append] at hnd
          exact hnd.2.2 hmem (List.mem_cons_self _ _)
        have hmi : mapInsert acc i d = acc ++ [(i, d)] := by
          unfold mapInsert
          rw [any_keys_eq_false hkey]
          simp
        rw [hmi]
        rw [ih is (acc ++ [(i, d)]) hri (fun j hj => hh j (List.mem_cons_of_mem _ hj))
          (by
            rw [List.map_append, List.append_assoc]
            simpa using hnd)]
        rw [List.zip_cons_cons, List.append_assoc]
        rfl

theorem ruleIds_zip_fst :
    ∀ (l : List Dict) (ids : List Json), ruleIds l = some ids →
    ∀ p ∈ ids.zip l, dGet p.2 "rule_id" = some p.1 := by
  intro l
  induction l with
  | nil =>
    intro ids hids p hp
    simp only [ruleIds, Option.some.injEq] at hids
    subst hids
    simp at hp
  | cons d ds ih =>
    intro ids hids p hp
    simp only [ruleIds] at hids
    cases hgi : dGet d "rule_id" with
    | none => rw [hgi] at hids; cases hids
    | some i =>
      rw [hgi] at hids
      cases hri : ruleIds ds with
      | none => rw [hri] at hids; cases hids
      | some is =>
        rw [hri] at hids
        simp only [Option.some.injEq] at hids
        subst hids
        rw [List.zip_cons_cons, List.mem_cons] at hp
        rcases hp with he | hp
        · subst he
          exact hgi
        · exact ih is hri p hp

theorem ruleIds_mem_zip :
    ∀ (l : List Dict) (ids : List Json), ruleIds l = some ids →
    ∀ d ∈ l, ∃ i, dGet d "rule_id" = some i ∧ (i, d) ∈ ids.zip l := by
  intro l
  induction l with
  | nil => intro ids _ d hd; cases hd
  | cons d0 ds ih =>
    intro ids hids d hd
    simp only [ruleIds] at hids
    cases hgi : dGet d0 "rule_id" with
    | none => rw [hgi] at hids; cases hids
    | some i =>
      rw [hgi] at hids
      cases hri : ruleIds ds with
      | none => rw [hri] at hids; cases hids
      | some is =>
        rw [hri] at hids
        simp only [Option.some.injEq] at hids
        subst hids
        rw [List.mem_cons] at hd
        rcases hd with he | hd
        · subst he
          exact ⟨i, hgi, by rw [List.zip_cons_cons]; exact List.mem_cons_self _ _⟩
        · obtain ⟨j, hj1, hj2⟩ := ih is hri d hd
          exact ⟨j, hj1, by rw [List.zip_cons_cons]; exact List.mem_cons_of_mem _ hj2⟩

theorem mapGet_zip :
    ∀ (ids : List Json) (l : List Dict) (i : Json) (d : Dict),
    ids.Nodup → (i, d) ∈ ids.zip l → mapGet (ids.zip l) i = some d := by
  intro ids
  induction ids with
  | nil => intro l i d _ hm; simp at hm
  | cons i0 tl ih =>
    intro l i d hnd hm
    cases l with
    | nil => simp at hm
    | cons d0 l' =>
      rw [List.zip_cons_cons, List.mem_cons] at hm
      unfold mapGet
      rcases hm with he | hm
      · rw [Prod.mk.injEq] at he
        obtain ⟨h1, h2⟩ := he
        subst h1
        subst h2
        rw [List.zip_cons_cons]
        rw [List.find?_cons_of_pos _ (by simp)]
        rfl
      · have hi : i ∈ tl := (List.of_mem_zip hm).1
        have hne : i0 ≠ i := fun he => (List.nodup_cons.mp hnd).1 (he ▸ hi)
        rw [List.zip_cons_cons]
        rw [List.find?_cons_of_neg _ (by simp [hne])]
        unfold mapGet at ih
        exact ih l' i d (List.nodup_cons.mp hnd).2 hm

/-- Claim C3, counterexample: two empty rule sets have equal counts, the
same (no) rule ids and vacuously agreeing rules, yet the detector reports a
change - `_detect_config_changes` deliberately treats an empty old rule set
as changed ("新规则，视为配置变更"). -/
theorem c3_counterexample_empty : detect_config_changes [] [] = true := rfl

/-- Claim C3 (amended): for a NON-EMPTY pair of rule sets with equal counts,
present, hashable and duplicate-free rule ids, where each new rule agrees
with an old rule of the same id on `rule_config`, `priority` and `status`
(all other fields free), the detector reports no change. -/
theorem c3_detector_ignores_other_fields :
    ∀ (r1 r2 : List Dict) (ids1 ids2 : List Json),
    r1 ≠ [] →
    r1.length = r2.length →
    ruleIds r1 = some ids1 → ruleIds r2 = some ids2 →
    (∀ j ∈ ids1, jHashable j = true) → (∀ j ∈ ids2, jHashable j = true) →
    ids1.Nodup → ids2.Nodup →
    (∀ d2 ∈ r2, ∃ d1 ∈ r1,
      dGet d1 "rule_id" = dGet d2 "rule_id" ∧
      optPyEq (dGet d1 "rule_config") (dGet d2 "rule_config") = true ∧
      optPyEq (dGet d1 "priority") (dGet d2 "priority") = true ∧
      optPyEq (dGet d1 "status") (dGet d2 "status") = true) →
    detect_config_changes r1 r2 = false := by
  intro r1 r2 ids1 ids2 hne hlen hid1 hid2 hh1 hh2 hnd1 hnd2 hagree
  have hm1 : buildRuleMap r1 = .ok (ids1.zip r1) :=
    buildRuleMapAux_zip r1 ids1 [] hid1 hh1 (by simpa using hnd1)
  have hm2 : buildRuleMap r2 = .ok (ids2.zip r2) :=
    buildRuleMapAux_zip r2 ids2 [] hid2 hh2 (by simpa using hnd2)
  have hie : r1.isEmpty = false := by
    cases r1 with
    | nil => cases hne rfl
    | cons d ds => rfl
  unfold detect_config_changes detectConfigChangesE
  rw [hie]
  simp only [Bool.false_eq_true, if_false]
  rw [hm1, hm2]
  simp only []
  rw [if_neg (fun h => h hlen)]
  have hany : ((ids2.zip r2).any fun p => ruleEntryChanged (ids1.zip r1) p.1 p.2) = false := by
    rw [List.any_eq_false]
    intro p hp
    obtain ⟨i, d2⟩ := p
    have hd2 : d2 ∈ r2 := (List.of_mem_zip hp).2
    have hid : dGet d2 "rule_id" = some i := ruleIds_zip_fst r2 ids2 hid2 _ hp
    obtain ⟨d1, hd1mem, heq, hc, hpr, hst⟩ := hagree d2 hd2
    obtain ⟨i1, hgi1, hzip1⟩ := ruleIds_mem_zip r1 ids1 hid1 d1 hd1mem
    have hii : i1 = i := by
      rw [hgi1, hid] at heq
      injection heq
    subst hii
    unfold ruleEntryChanged
    rw [mapGet_zip ids1 r1 i1 d1 hnd1 hzip1]
    simp only [hc, hpr, hst]
    decide
  rw [hany]

theorem c3_witness :
    ([old_token_rule] ≠ ([] : List Dict)) ∧
    [old_token_rule].length
      = [old_token_rule ++ [("remark", Json.str "renamed")]].length ∧
    ruleIds [old_token_rule] = some [.num 1] ∧
    ruleIds [old_token_rule ++ [("remark", Json.str "renamed")]] = some [.num 1] ∧
    detect_config_changes [old_token_rule]
      [old_token_rule ++ [("remark", Json.str "renamed")]] = false :=
  ⟨by decide, by decide, by decide, by decide,
   c3_detector_ignores_other_fields [old_token_rule]
     [old_token_rule ++ [("remark", Json.str "renamed")]] [.num 1] [.num 1]
     (by decide) (by decide) (by decide) (by decide)
     (by decide) (by decide) (by decide) (by decide)
     (fun d2 hd2 => ⟨old_token_rule, by decide,
       by rw [List.mem_singleton] at hd2; subst hd2; exact ⟨by decide, by decide, by decide,
         by decide⟩⟩)⟩

/-- Claim C1, evaluated at the failing input (the spec's own scenario): the
rule-set update from `max=10` to `max=20` is detected as a change and the
reset runs, yet the token counter of the current hourly window (window
start 3600 at time 3605) still reads 7 afterwards, both through
`get_counter` and through the usage read path.  The reset wrote
`rate_limit:1:1:hour:3605` / `rate_limit:1:1:day:3605` - keys derived from
the rule id and the raw timestamp that no reader consults - and its cleanup
patterns cannot match the live key `rate_limit:1:token:3600`, so the prior
value stays observable, contradicting the claim. -/
theorem c1_reset_not_observed_on_read_path :
    detect_config_changes [old_token_rule] [new_token_rule] = true ∧
    get_counter resetScenarioSt (token_counter_key 1 3600) = 7 ∧
    get_counter (set_rules resetScenarioSt 1 [new_token_rule] 3605 none)
      (token_counter_key 1 3600) = 7 ∧
    (get_token_usage (set_rules resetScenarioSt 1 [new_token_rule] 3605 none) 1
        [("max_tokens_per_hour", Json.num 20)] 3605 60).map TokenUsage.current_usage
      = some 7 :=
  ⟨by decide, by decide, by decide, by decide⟩

/-! ### Read-after-create (claim C5) -/

theorem data_append (a b : String) : (a ++ b).data = a.data ++ b.data := by
  cases a
  cases b
  rfl

/-- The `n`-th character of a character list. -/
def nthChar (l : List Char) (n : Nat) : Option Char := (l.drop n).head?

theorem nthChar_append_left (l1 l2 : List Char) (n : Nat) (c : Char)
    (h : nthChar l1 n = some c) : nthChar (l1 ++ l2) n = some c := by
  induction l1 generalizing n with
  | nil => exact absurd h (by simp [nthChar])
  | cons x xs ih =>
    cases n with
    | zero => simpa [nthChar] using h
    | succ m =>
      unfold nthChar at h ⊢
      rw [List.drop_succ_cons] at h
      rw [List.cons_append, List.drop_succ_cons]
      exact ih m h

theorem nthChar_ne (a b : String) (n : Nat) (c1 c2 : Char)
    (h1 : nthChar a.data n = some c1) (h2 : nthChar b.data n = some c2)
    (hc : c1 ≠ c2) : a ≠ b := by
  intro he
  rw [he] at h1
  rw [h1] at h2
  exact hc (Option.some.inj h2)

/-- The namespace and matcher cache keys never collide (they differ at the
start of the data-type segment). -/
theorem nsCacheKey_ne_matchersCacheKey (i j : Int) :
    nsCacheKey i ≠ matchersCacheKey j := by
  refine nthChar_ne _ _ 7 'n' 'm' ?_ ?_ (by decide)
  · rw [show nsCacheKey i = "config:namespaces:" ++ intStr i from rfl, data_append]
    exact nthChar_append_left _ _ 7 'n' (by decide)
  · rw [show matchersCacheKey j = "config:matchers:" ++ intStr j from rfl, data_append]
    exact nthChar_append_left _ _ 7 'm' (by decide)

theorem set_matchers_up (st : St) (ns : Int) (ms : List Dict) (ttl : Option Int) :
    (set_matchers st ns ms ttl).redis.up = st.redis.up := by
  obtain ⟨⟨u, data⟩, odb⟩ := st
  cases u
  · rfl
  · rfl

/-- `set_matchers` only ever writes the matcher cache key. -/
theorem set_matchers_other_key (st : St) (ns : Int) (ms : List Dict) (ttl : Option Int)
    (k : String) (hk : k ≠ matchersCacheKey ns) :
    lookupKV (set_matchers st ns ms ttl).redis.data k = lookupKV st.redis.data k := by
  obtain ⟨⟨u, data⟩, odb⟩ := st
  cases u
  · rfl
  · exact lookupKV_setKV_other _ _ (Ne.symm hk)

theorem create_default_matcher_up (st : St) (ns : Int) (d : Dict) :
    (create_default_matcher st ns d).redis.up = st.redis.up := by
  simp only [create_default_matcher]
  split
  · rfl
  · split
    · split
      · rfl
      · split
        · rfl
        · exact set_matchers_up _ _ _ _
    · rfl

/-- `_create_default_matcher` touches no cache key besides the matcher one. -/
theorem create_default_matcher_other_key (st : St) (ns : Int) (d : Dict) (k : String)
    (hk : k ≠ matchersCacheKey ns) :
    lookupKV (create_default_matcher st ns d).redis.data k = lookupKV st.redis.data k := by
  simp only [create_default_matcher]
  split
  · rfl
  · split
    · split
      · rfl
      · split
        · rfl
        · exact set_matchers_other_key _ _ _ _ _ hk
    · rfl

theorem encOkFields_append (l1 l2 : List (String × Json)) :
    encOkFields (l1 ++ l2) = (encOkFields l1 && encOkFields l2) := by
  induction l1 with
  | nil => rfl
  | cons f fs ih =>
    obtain ⟨k, v⟩ := f
    simp only [List.cons_append, encOkFields, List.append_eq, ih, Bool.and_assoc]

theorem encodeDict_data (d : Dict) : (encodeDict d).data = encJ (.obj d) := rfl

theorem encodeDict_ne_empty (d : Dict) : encodeDict d ≠ "" := by
  intro h
  have hd : encJ (.obj d) = [] := congrArg String.data h
  cases d with
  | nil => exact absurd hd (by decide)
  | cons f fs =>
    obtain ⟨k, v⟩ := f
    simp [encJ] at hd

/-- A cached namespace record placed under its key survives the default
matcher creation and is returned, decoded, by `get_namespace`. -/
theorem get_namespace_after_matcher (st : St) (ns : Int) (d : Dict)
    (hst : st.redis.up = true)
    (hdata : lookupKV st.redis.data (nsCacheKey ns) = some (encodeDict d))
    (hok : encOk (.obj d) = true) :
    get_namespace (create_default_matcher st ns d) ns = .ok (some (.obj d)) := by
  have hu : (create_default_matcher st ns d).redis.up = true := by
    rw [create_default_matcher_up]
    exact hst
  have hl : lookupKV (create_default_matcher st ns d).redis.data (nsCacheKey ns)
      = some (encodeDict d) := by
    rw [create_default_matcher_other_key st ns d _ (nsCacheKey_ne_matchersCacheKey ns ns)]
    exact hdata
  simp only [get_namespace, get_namespace_try, Redis.rget, hu, hl, eq_self_iff_true,
    if_true, ne_eq, encodeDict_ne_empty, not_false_eq_true, encodeDict_data,
    decodeJ_encJ _ hok]

/-- The row `create_namespace` inserts (database.py:239-246): the two
required columns read by subscript, plus `description`/`status` from `.get`
with their defaults, under the autoincrement id. -/
def nsRow (db : Db) (d : Dict) (code name : Json) : Dict :=
  [("namespace_id", .num db.nextNamespaceId),
   ("namespace_code", code),
   ("namespace_name", name),
   ("description", dGetD d "description" (.str "")),
   ("status", dGetD d "status" (.num 1))]

/-- The synchronous state reached by a successful `create_namespace_dual_write`
just before `_create_default_matcher` runs: the temp staging key written and
deleted again, the real namespace cache key upserted with the payload plus
the generated id, and the schema row appended in MySQL. -/
def afterCreateSt (st : St) (db : Db) (d : Dict) (stamp : Int) (code name : Json) : St :=
  { redis :=
      { up := true,
        data := setKV (delKV (setKV st.redis.data (temp_namespace_key stamp)
              (encodeDict d)) (temp_namespace_key stamp))
          (nsCacheKey db.nextNamespaceId)
          (encodeDict (dSet d "namespace_id" (.num db.nextNamespaceId))) },
    db := some { db with
      namespaces := db.namespaces ++ [(db.nextNamespaceId, nsRow db d code name)],
      nextNamespaceId := db.nextNamespaceId + 1 } }

/-- Claim C5: for every namespace payload that carries the required
`namespace_code` and `namespace_name` columns (the MySQL insert reads them
by subscript and re-raises the `KeyError` otherwise) and no preset
`namespace_id`, when both stores are reachable and the generated id is
truthy, `create_namespace_dual_write` returns that id and an immediate
`get_namespace(id)` in the same process returns the record made of the
payload's fields plus the generated id (read-after-write). -/
theorem c5_read_after_create (st : St) (db : Db) (d : Dict) (stamp : Int)
    (code name : Json)
    (hdb : st.db = some db) (hdbup : db.up = true) (hrup : st.redis.up = true)
    (hne : db.nextNamespaceId ≠ 0)
    (hcode : dItem d "namespace_code" = .ok code)
    (hname : dItem d "namespace_name" = .ok name)
    (hfresh : dGet d "namespace_id" = none)
    (henc : encOkFields d = true) :
    (create_namespace_dual_write st d stamp).2 = .ok db.nextNamespaceId ∧
    get_namespace (create_namespace_dual_write st d stamp).1 db.nextNamespaceId
      = .ok (some (.obj (dSet d "namespace_id" (.num db.nextNamespaceId)))) := by
  have hcr : create_namespace_dual_write st d stamp
      = (create_default_matcher (afterCreateSt st db d stamp code name)
          db.nextNamespaceId
          (dSet d "namespace_id" (.num db.nextNamespaceId)),
         Except.ok db.nextNamespaceId) := by
    simp only [create_namespace_dual_write, hdb, Db.createNamespace, hdbup, Redis.rset,
      hrup, Redis.rdel, hcode, hname, create_namespace_finish, ne_eq, hne,
      not_false_eq_true, set_namespace, eq_self_iff_true, if_true, afterCreateSt, nsRow]
  have hok : encOk (.obj (dSet d "namespace_id" (.num db.nextNamespaceId))) = true := by
    have hf2 : jLookup d "namespace_id" = none := hfresh
    rw [show dSet d "namespace_id" (.num db.nextNamespaceId)
        = d ++ [("namespace_id", .num db.nextNamespaceId)] from by
      unfold dSet
      rw [hf2]]
    show encOkFields (d ++ [("namespace_id", .num db.nextNamespaceId)]) = true
    rw [encOkFields_append, henc]
    rfl
  constructor
  · rw [hcr]
  · rw [hcr]
    exact get_namespace_after_matcher _ _ _ rfl (lookupKV_setKV_self _ _ _) hok

/-- Witness for C5: creating `wechat` (code and name supplied) in a healthy
empty two-store state returns id 7, and reading namespace 7 straight back
yields the payload plus `namespace_id = 7`. -/
theorem c5_witness :
    (create_namespace_dual_write healthySt
        [("namespace_code", .str "wechat"), ("namespace_name", .str "WeChat")] 99).2
        = .ok 7 ∧
    get_namespace (create_namespace_dual_write healthySt
        [("namespace_code", .str "wechat"), ("namespace_name", .str "WeChat")] 99).1 7
      = .ok (some (.obj [("namespace_code", .str "wechat"),
          ("namespace_name", .str "WeChat"), ("namespace_id", .num 7)])) := by
  have h := c5_read_after_create healthySt
    { up := true, namespaces := [], matchers := [], rules := [],
      nextNamespaceId := 7, nextMatcherId := 1 }
    [("namespace_code", .str "wechat"), ("namespace_name", .str "WeChat")] 99
    (.str "wechat") (.str "WeChat") rfl rfl rfl (by decide) (by decide) (by decide)
    (by decide) (by decide)
  exact ⟨h.1, h.2.trans (by decide)⟩
